import Mathlib

/-!
# Verification of the xml-generator backend core logic

A shallow embedding of `src/server.js` of the xml-generator backend.
Monetary amounts (JavaScript numbers) are modelled as rationals `ℚ`;
integer cents are `ℤ`; JavaScript strings are `String`; absent object
fields are `Option`; the lowdb document stores are explicit record
values threaded through each request handler.  `uuidv4()` is modelled
by an abstract supply `fresh : ℕ → String` consumed left to right in
the order the JavaScript calls it.
-/

namespace XmlGen

/-- JavaScript truthiness of a possibly-absent string: `undefined` and `""` are falsy. -/
def jsTruthyO : Option String → Bool
  | some s => s != ""
  | none => false

/-- JavaScript `a || b` where `a` is a possibly-absent string and `b` a string. -/
def jsOrS (a : Option String) (b : String) : String :=
  if jsTruthyO a then a.getD "" else b

/-- Decimal digits of `n`, most significant first; fuelled structural recursion. -/
def natDigitsAux : ℕ → ℕ → List ℕ
  | 0, _ => []
  | fuel + 1, n => if n < 10 then [n] else natDigitsAux fuel (n / 10) ++ [n % 10]

/-- Decimal digits of `n`, most significant first. -/
def natDigits (n : ℕ) : List ℕ := natDigitsAux (n + 1) n

/-- Decimal rendering of a natural number (as JavaScript renders the integer part). -/
def natRepr (n : ℕ) : String := String.mk ((natDigits n).map Nat.digitChar)

/-- Models JavaScript's `(c / 100).toFixed(2)` applied to an exact integer number
of cents `c`: sign, integer part, a dot, then exactly two fraction digits. -/
def centsToString (c : ℤ) : String :=
  String.mk ((if c < 0 then ['-'] else []) ++ (natRepr (c.natAbs / 100)).data ++
    '.' :: [Nat.digitChar (c.natAbs / 10 % 10), Nat.digitChar (c.natAbs % 10)])

/-- Numeric value of a decimal digit character. -/
def digitVal (c : Char) : ℕ := c.toNat - 48

/-- Value of a list of decimal digit characters, most significant first. -/
def foldDigits (l : List Char) : ℕ := l.foldl (fun a c => 10 * a + digitVal c) 0

/-- Cents value of an unsigned decimal character sequence `intpart.frac`. -/
def centsValueChars (chars : List Char) : ℤ :=
  (foldDigits (chars.takeWhile (fun c => c != '.'))) * 100 +
    foldDigits ((chars.dropWhile (fun c => c != '.')).drop 1)

/-- Cents value denoted by a two-decimal monetary string such as "-12.34". -/
def centsValue (s : String) : ℤ :=
  match s.data with
  | [] => 0
  | c :: rest => if c = '-' then -(centsValueChars rest) else centsValueChars (c :: rest)

/-- The string ends in a dot followed by exactly two decimal digits. -/
def hasTwoDecimals (s : String) : Bool :=
  match s.data.reverse with
  | b :: a :: c :: _ => a.isDigit && b.isDigit && (c == '.')
  | _ => false

/-- JavaScript `Math.round`: round half toward positive infinity. -/
def jsRound (x : ℚ) : ℤ := ⌊x + 1 / 2⌋

/-- `shares[i] += 1` for each listed index, in order (the JavaScript remainder loop). -/
def bumpIndices : List ℤ → List ℕ → List ℤ
  | shares, [] => shares
  | shares, i :: is => bumpIndices (shares.set i (shares.getD i 0 + 1)) is

/-- Integer-cent shares computed by `allocateProportionalToCents` in `src/server.js`
(everything before the final `toFixed(2)` formatting): round the total to cents,
return all zeros when the cent total or the weight sum is zero, otherwise floor the
exact proportional shares and hand the leftover cents to the largest fractional
remainders (stable descending sort, as JavaScript's stable `sort` with comparator
`b.frac - a.frac`). -/
def allocCents (totalAmount : ℚ) (weights : List ℚ) : List ℤ :=
  let totalCents := jsRound (totalAmount * 100)
  let weightSum := weights.sum
  if totalCents = 0 ∨ weightSum = 0 then
    weights.map (fun _ => 0)
  else
    let exactShares := weights.map (fun w => w / weightSum * (totalCents : ℚ))
    let floorShares := exactShares.map (fun s => ⌊s⌋)
    let fractions := (exactShares.enum.map (fun p => (p.1, p.2 - (⌊p.2⌋ : ℚ))))
    let remainder := totalCents - floorShares.sum
    let sorted := fractions.mergeSort (fun a b => decide (b.2 ≤ a.2))
    bumpIndices floorShares ((sorted.take remainder.toNat).map Prod.fst)

/-- `allocateProportionalToCents` from `src/server.js`: the integer-cent shares
formatted to two decimals. -/
def allocateProportionalToCents (totalAmount : ℚ) (weights : List ℚ) : List String :=
  (allocCents totalAmount weights).map centsToString

/-- Integer-cent shares computed by `divideEquallyInCents` in `src/server.js`:
`Math.floor(totalCents / count)` per item (`Int.fdiv`), then the JavaScript
remainder `totalCents % count` (`Int.tmod`, truncating) extra cents go one each
to the first items. -/
def divideCents (totalAmount : ℚ) (count : ℕ) : List ℤ :=
  if count = 0 then []
  else
    let totalCents := jsRound (totalAmount * 100)
    let perItem := Int.fdiv totalCents count
    let remainder := Int.tmod totalCents count
    bumpIndices (List.replicate count perItem) (List.range remainder.toNat)

/-- `divideEquallyInCents` from `src/server.js`. -/
def divideEquallyInCents (totalAmount : ℚ) (count : ℕ) : List String :=
  (divideCents totalAmount count).map centsToString

/-! ## Decimal-string formatting lemmas -/

theorem natDigitsAux_lt10 : ∀ fuel n, n < fuel → ∀ d ∈ natDigitsAux fuel n, d < 10 := by
  intro fuel
  induction fuel with
  | zero => intro n h; exact absurd h (Nat.not_lt_zero n)
  | succ fuel ih =>
    intro n h d hd
    by_cases h10 : n < 10
    · simp only [natDigitsAux, if_pos h10, List.mem_singleton] at hd
      omega
    · simp only [natDigitsAux, if_neg h10, List.mem_append, List.mem_singleton] at hd
      rcases hd with hd | hd
      · exact ih (n / 10) (by omega) d hd
      · omega

theorem natDigits_lt10 (n : ℕ) : ∀ d ∈ natDigits n, d < 10 :=
  natDigitsAux_lt10 (n + 1) n (by omega)

theorem natDigitsAux_ne_nil : ∀ fuel n, n < fuel → natDigitsAux fuel n ≠ [] := by
  intro fuel
  induction fuel with
  | zero => intro n h; exact absurd h (Nat.not_lt_zero n)
  | succ fuel _ =>
    intro n _
    by_cases h10 : n < 10 <;> simp [natDigitsAux, h10]

theorem natDigits_ne_nil (n : ℕ) : natDigits n ≠ [] :=
  natDigitsAux_ne_nil (n + 1) n (by omega)

theorem natDigitsAux_foldl :
    ∀ fuel n, n < fuel → List.foldl (fun a d => 10 * a + d) 0 (natDigitsAux fuel n) = n := by
  intro fuel
  induction fuel with
  | zero => intro n h; exact absurd h (Nat.not_lt_zero n)
  | succ fuel ih =>
    intro n h
    by_cases h10 : n < 10
    · simp [natDigitsAux, h10]
    · rw [natDigitsAux, if_neg h10, List.foldl_append, ih (n / 10) (by omega)]
      simp only [List.foldl_cons, List.foldl_nil]
      omega

theorem natDigits_foldl (n : ℕ) : List.foldl (fun a d => 10 * a + d) 0 (natDigits n) = n :=
  natDigitsAux_foldl (n + 1) n (by omega)

theorem digitVal_digitChar : ∀ d : ℕ, d < 10 → digitVal (Nat.digitChar d) = d := by decide

theorem digitChar_isDigit : ∀ d : ℕ, d < 10 → (Nat.digitChar d).isDigit = true := by decide

theorem digitChar_ne_dash : ∀ d : ℕ, d < 10 → Nat.digitChar d ≠ '-' := by decide

theorem digitChar_ne_dot : ∀ d : ℕ, d < 10 → Nat.digitChar d ≠ '.' := by decide

theorem foldl_digitChar_congr (l : List ℕ) (h : ∀ d ∈ l, d < 10) :
    ∀ a : ℕ, List.foldl (fun a c => 10 * a + digitVal c) a (l.map Nat.digitChar) =
      List.foldl (fun a d => 10 * a + d) a l := by
  induction l with
  | nil => intro a; rfl
  | cons x xs ih =>
    intro a
    simp only [List.map_cons, List.foldl_cons]
    rw [digitVal_digitChar x (h x (List.mem_cons_self x xs))]
    exact ih (fun d hd => h d (List.mem_cons_of_mem x hd)) _

theorem foldDigits_natDigits (n : ℕ) : foldDigits ((natDigits n).map Nat.digitChar) = n := by
  unfold foldDigits
  rw [foldl_digitChar_congr _ (natDigits_lt10 n), natDigits_foldl]

theorem takeWhile_all_append {p : Char → Bool} (l1 : List Char) {y : Char} (l2 : List Char)
    (h1 : ∀ x ∈ l1, p x = true) (h2 : p y = false) :
    (l1 ++ y :: l2).takeWhile p = l1 ∧ (l1 ++ y :: l2).dropWhile p = y :: l2 := by
  induction l1 with
  | nil => simp [List.takeWhile, List.dropWhile, h2]
  | cons x xs ih =>
    have hx : p x = true := h1 x (List.mem_cons_self x xs)
    have := ih (fun z hz => h1 z (List.mem_cons_of_mem x hz))
    simp [List.takeWhile, List.dropWhile, hx, this.1, this.2]

theorem centsValueChars_spec (q m : ℕ) (hm : m < 100) :
    centsValueChars ((natDigits q).map Nat.digitChar ++
      '.' :: [Nat.digitChar (m / 10), Nat.digitChar (m % 10)]) = q * 100 + m := by
  have hdigits : ∀ x ∈ (natDigits q).map Nat.digitChar, (x != '.') = true := by
    intro x hx
    rcases List.mem_map.mp hx with ⟨d, hd, rfl⟩
    simpa using digitChar_ne_dot d (natDigits_lt10 q d hd)
  have hdot : (('.' : Char) != '.') = false := by decide
  obtain ⟨htake, hdrop⟩ := takeWhile_all_append ((natDigits q).map Nat.digitChar)
    [Nat.digitChar (m / 10), Nat.digitChar (m % 10)] hdigits hdot
  unfold centsValueChars
  rw [htake, hdrop, foldDigits_natDigits]
  have h1 : m / 10 < 10 := by omega
  have h2 : m % 10 < 10 := by omega
  simp only [List.drop_succ_cons, List.drop_zero, foldDigits, List.foldl_cons, List.foldl_nil]
  rw [digitVal_digitChar _ h1, digitVal_digitChar _ h2]
  push_cast
  omega

theorem centsToString_data (c : ℤ) :
    (centsToString c).data = (if c < 0 then ['-'] else []) ++
      ((natDigits (c.natAbs / 100)).map Nat.digitChar ++
        '.' :: [Nat.digitChar (c.natAbs / 10 % 10), Nat.digitChar (c.natAbs % 10)]) := by
  simp [centsToString, natRepr]

theorem centsValue_mk_dash (rest : List Char) :
    centsValue (String.mk ('-' :: rest)) = -(centsValueChars rest) := by
  simp [centsValue]

theorem centsValue_mk_cons (x : Char) (rest : List Char) (hx : x ≠ '-') :
    centsValue (String.mk (x :: rest)) = centsValueChars (x :: rest) := by
  simp [centsValue, hx]

theorem centsValue_centsToString (c : ℤ) : centsValue (centsToString c) = c := by
  have hspec := centsValueChars_spec (c.natAbs / 100) (c.natAbs % 100) (by omega)
  have hfrac1 : c.natAbs % 100 / 10 = c.natAbs / 10 % 10 := by omega
  have hfrac2 : c.natAbs % 100 % 10 = c.natAbs % 10 := by omega
  rw [hfrac1, hfrac2] at hspec
  have hval : centsValueChars ((natDigits (c.natAbs / 100)).map Nat.digitChar ++
      '.' :: [Nat.digitChar (c.natAbs / 10 % 10), Nat.digitChar (c.natAbs % 10)]) =
      (c.natAbs : ℤ) := by
    rw [hspec]; push_cast; omega
  rcases lt_or_le c 0 with hneg | hpos
  · have hs : centsToString c = String.mk ('-' :: ((natDigits (c.natAbs / 100)).map
        Nat.digitChar ++
        '.' :: [Nat.digitChar (c.natAbs / 10 % 10), Nat.digitChar (c.natAbs % 10)])) := by
      rw [centsToString, if_pos hneg]
      rfl
    rw [hs, centsValue_mk_dash, hval]
    omega
  · obtain ⟨d, ds, hds⟩ : ∃ d ds, natDigits (c.natAbs / 100) = d :: ds := by
      cases h : natDigits (c.natAbs / 100) with
      | nil => exact absurd h (natDigits_ne_nil _)
      | cons d ds => exact ⟨d, ds, rfl⟩
    have hd10 : d < 10 := natDigits_lt10 _ d (by rw [hds]; exact List.mem_cons_self d ds)
    have hs : centsToString c = String.mk (Nat.digitChar d :: (ds.map Nat.digitChar ++
        '.' :: [Nat.digitChar (c.natAbs / 10 % 10), Nat.digitChar (c.natAbs % 10)])) := by
      rw [centsToString, if_neg (not_lt.mpr hpos)]
      simp [natRepr, hds]
    rw [hs, centsValue_mk_cons _ _ (digitChar_ne_dash d hd10)]
    have hlist : Nat.digitChar d :: (ds.map Nat.digitChar ++
        '.' :: [Nat.digitChar (c.natAbs / 10 % 10), Nat.digitChar (c.natAbs % 10)]) =
        ((natDigits (c.natAbs / 100)).map Nat.digitChar ++
        '.' :: [Nat.digitChar (c.natAbs / 10 % 10), Nat.digitChar (c.natAbs % 10)]) := by
      rw [hds]
      rfl
    rw [hlist, hval]
    omega

theorem hasTwoDecimals_centsToString (c : ℤ) : hasTwoDecimals (centsToString c) = true := by
  rw [hasTwoDecimals, centsToString_data c]
  have h1 : c.natAbs / 10 % 10 < 10 := by omega
  have h2 : c.natAbs % 10 < 10 := by omega
  simp only [List.reverse_append, List.reverse_cons, List.reverse_nil, List.nil_append,
    List.append_assoc, List.cons_append]
  simp [digitChar_isDigit _ h1, digitChar_isDigit _ h2]

/-! ## Allocation sum lemmas -/

theorem bumpIndices_length : ∀ (is : List ℕ) (shares : List ℤ),
    (bumpIndices shares is).length = shares.length := by
  intro is
  induction is with
  | nil => intro shares; rfl
  | cons i is ih => intro shares; rw [bumpIndices, ih, List.length_set]

theorem sum_set_incr (l : List ℤ) (i : ℕ) (h : i < l.length) :
    (l.set i (l.getD i 0 + 1)).sum = l.sum + 1 := by
  induction l generalizing i with
  | nil => simp at h
  | cons x xs ih =>
    cases i with
    | zero => simp [List.set, List.getD]; ring
    | succ j =>
      have hj : j < xs.length := by simpa using h
      simp only [List.set, List.getD, List.get?, List.sum_cons]
      have := ih j hj
      simp only [List.getD] at this
      omega

theorem bumpIndices_sum : ∀ (is : List ℕ) (shares : List ℤ),
    (∀ i ∈ is, i < shares.length) → (bumpIndices shares is).sum = shares.sum + is.length := by
  intro is
  induction is with
  | nil => intro shares _; simp [bumpIndices]
  | cons i is ih =>
    intro shares h
    have hi : i < shares.length := h i (List.mem_cons_self i is)
    rw [bumpIndices, ih _ (fun j hj => by
      rw [List.length_set]; exact h j (List.mem_cons_of_mem i hj))]
    rw [sum_set_incr shares i hi]
    simp only [List.length_cons]
    push_cast
    ring

theorem sum_map_mul (l : List ℚ) (c : ℚ) : (l.map (fun w => w * c)).sum = l.sum * c := by
  induction l with
  | nil => simp
  | cons x xs ih => simp only [List.map_cons, List.sum_cons, ih]; ring

theorem sum_map_sub_floor (l : List ℚ) :
    (l.map (fun s => s - (⌊s⌋ : ℚ))).sum = l.sum - ((l.map (fun s => ⌊s⌋)).sum : ℚ) := by
  induction l with
  | nil => simp
  | cons x xs ih =>
    simp only [List.map_cons, List.sum_cons, ih]
    push_cast
    ring

theorem sum_lt_length (l : List ℚ) (hne : l ≠ []) (hb : ∀ x ∈ l, x < 1) :
    l.sum < l.length := by
  induction l with
  | nil => exact absurd rfl hne
  | cons x xs ih =>
    have hx : x < 1 := hb x (List.mem_cons_self x xs)
    cases xs with
    | nil => simpa using hx
    | cons y ys =>
      have := ih (by simp) (fun z hz => hb z (List.mem_cons_of_mem x hz))
      simp only [List.sum_cons, List.length_cons] at this ⊢
      push_cast at this ⊢
      linarith

theorem sum_le_length (l : List ℚ) (hb : ∀ x ∈ l, x ≤ 1) : l.sum ≤ l.length := by
  induction l with
  | nil => simp
  | cons x xs ih =>
    have hx : x ≤ 1 := hb x (List.mem_cons_self x xs)
    have := ih (fun z hz => hb z (List.mem_cons_of_mem x hz))
    simp only [List.sum_cons, List.length_cons]
    push_cast
    linarith

theorem sum_map_zero (l : List ℚ) : (l.map (fun _ => (0 : ℤ))).sum = 0 := by
  induction l with
  | nil => rfl
  | cons x xs ih => simp [ih]

theorem allocCents_length (t : ℚ) (ws : List ℚ) : (allocCents t ws).length = ws.length := by
  simp only [allocCents]
  split
  · simp
  · rw [bumpIndices_length]
    simp

theorem allocCents_sum (t : ℚ) (ws : List ℚ) (h : ws.sum ≠ 0) :
    (allocCents t ws).sum = jsRound (t * 100) := by
  simp only [allocCents]
  by_cases hT : jsRound (t * 100) = 0
  · rw [if_pos (Or.inl hT), hT]
    exact sum_map_zero ws
  · rw [if_neg (by push_neg; exact ⟨hT, h⟩)]
    set T : ℤ := jsRound (t * 100) with hTdef
    set S : ℚ := ws.sum with hSdef
    set exactShares : List ℚ := ws.map (fun w => w / S * (T : ℚ)) with hexact
    set floorShares : List ℤ := exactShares.map (fun s => ⌊s⌋) with hfloor
    have hexlen : exactShares.length = ws.length := by simp [hexact]
    have hfllen : floorShares.length = exactShares.length := by simp [hfloor]
    -- the exact shares sum to the cent total
    have hsum_exact : exactShares.sum = (T : ℚ) := by
      have : exactShares = ws.map (fun w => w * ((T : ℚ) / S)) := by
        rw [hexact]
        apply List.map_congr_left
        intro w _
        field_simp
      rw [this, sum_map_mul, ← hSdef]
      field_simp
    -- remainder bounds
    have hfloor_le : ((floorShares.sum : ℤ) : ℚ) ≤ exactShares.sum := by
      rw [hfloor, Int.cast_list_sum, List.map_map]
      have hid : exactShares.sum = (exactShares.map id).sum := by simp
      rw [hid]
      apply List.sum_le_sum
      intro s _
      simpa using Int.floor_le s
    have hrem_nonneg : 0 ≤ T - floorShares.sum := by
      have h1 : ((floorShares.sum : ℤ) : ℚ) ≤ ((T : ℤ) : ℚ) := by
        rw [← hsum_exact]; exact hfloor_le
      have h2 : floorShares.sum ≤ T := by exact_mod_cast h1
      omega
    have hws_ne : ws ≠ [] := by
      intro hnil
      exact h (by rw [hSdef, hnil]; rfl)
    have hex_ne : exactShares ≠ [] := by
      rw [hexact]
      simpa using hws_ne
    have hrem_lt : T - floorShares.sum < (ws.length : ℤ) := by
      have hfrac : (exactShares.map (fun s => s - (⌊s⌋ : ℚ))).sum <
          ((exactShares.map (fun s => s - (⌊s⌋ : ℚ))).length : ℚ) := by
        apply sum_lt_length
        · simpa using hex_ne
        · intro x hx
          rcases List.mem_map.mp hx with ⟨s, _, rfl⟩
          have := Int.fract_lt_one s
          rw [Int.fract] at this
          linarith
      rw [sum_map_sub_floor, hsum_exact, List.length_map] at hfrac
      have hlt : ((T - floorShares.sum : ℤ) : ℚ) < (ws.length : ℚ) := by
        rw [hexlen] at hfrac
        push_cast at hfrac ⊢
        linarith
      exact_mod_cast hlt
    set fractions : List (ℕ × ℚ) :=
      exactShares.enum.map (fun p => (p.1, p.2 - (⌊p.2⌋ : ℚ))) with hfractions
    set sorted := fractions.mergeSort (fun a b => decide (b.2 ≤ a.2)) with hsorted
    have hsortlen : sorted.length = ws.length := by
      rw [hsorted, List.length_mergeSort, hfractions]
      simp [hexlen]
    set remainder : ℤ := T - floorShares.sum with hremdef
    have htoNat_le : remainder.toNat ≤ ws.length := by omega
    set idxs : List ℕ := (sorted.take remainder.toNat).map Prod.fst with hidxs
    have hidxlen : idxs.length = remainder.toNat := by
      rw [hidxs, List.length_map, List.length_take, hsortlen]
      omega
    have hidx_lt : ∀ i ∈ idxs, i < floorShares.length := by
      intro i hi
      rcases List.mem_map.mp hi with ⟨p, hp, rfl⟩
      have hp2 : p ∈ sorted := List.mem_of_mem_take hp
      have hp3 : p ∈ fractions := ((List.mergeSort_perm fractions _).mem_iff).mp hp2
      rcases List.mem_map.mp hp3 with ⟨q, hq, rfl⟩
      have := (List.mem_enum hq).1
      rw [hfllen]
      exact this
    rw [bumpIndices_sum idxs floorShares hidx_lt, hidxlen]
    have : (remainder.toNat : ℤ) = remainder := Int.toNat_of_nonneg hrem_nonneg
    omega

theorem divideCents_length (t : ℚ) (n : ℕ) : (divideCents t n).length = n := by
  simp only [divideCents]
  split
  · rename_i h0
    simp [h0]
  · rw [bumpIndices_length, List.length_replicate]

theorem sum_replicate_int (n : ℕ) (x : ℤ) : (List.replicate n x).sum = n * x := by
  induction n with
  | zero => simp
  | succ m ih => simp [List.replicate, ih]; ring

theorem divideCents_sum (t : ℚ) (n : ℕ) (ht : 0 ≤ t) (hn : 0 < n) :
    (divideCents t n).sum = jsRound (t * 100) := by
  simp only [divideCents]
  rw [if_neg (by omega)]
  set T : ℤ := jsRound (t * 100) with hTdef
  have hT0 : 0 ≤ T := by
    rw [hTdef, jsRound]
    have : (0 : ℚ) ≤ t * 100 + 1 / 2 := by positivity
    exact Int.le_floor.mpr (by simpa using this)
  have hfd : Int.fdiv T n = T / n := Int.fdiv_eq_ediv T (by positivity)
  have htm : Int.tmod T n = T % n := Int.tmod_eq_emod hT0 (by positivity)
  have hmodlt : T % n < n := Int.emod_lt_of_pos T (by exact_mod_cast hn)
  have hmodnn : 0 ≤ T % n := Int.emod_nonneg T (by positivity)
  rw [bumpIndices_sum]
  · rw [sum_replicate_int, hfd, htm, List.length_range]
    have : ((T % n).toNat : ℤ) = T % n := Int.toNat_of_nonneg hmodnn
    have hdm := Int.ediv_add_emod T n
    omega
  · intro i hi
    rw [List.mem_range, htm] at hi
    rw [List.length_replicate]
    omega

/-! ## Claim C1: proportional allocation -/

/-- C1 (amended): for every total amount and every sequence of non-negative numeric
weights with positive sum, `allocateProportionalToCents` returns a sequence of decimal
strings of the same length as the weights, each with exactly 2 fractional digits,
whose values sum exactly (in cents) to `round(total * 100)`; when the weight sum is
zero every output is `"0.00"` (so the cent sum is `0`, not `round(total * 100)`). -/
theorem c1_allocateProportional_spec (t : ℚ) (ws : List ℚ) (_hw : ∀ w ∈ ws, 0 ≤ w) :
    (allocateProportionalToCents t ws).length = ws.length ∧
    (∀ s ∈ allocateProportionalToCents t ws, hasTwoDecimals s = true) ∧
    (0 < ws.sum →
      ((allocateProportionalToCents t ws).map centsValue).sum = jsRound (t * 100)) ∧
    (ws.sum = 0 → allocateProportionalToCents t ws = ws.map (fun _ => "0.00")) := by
  refine ⟨?_, ?_, ?_, ?_⟩
  · rw [allocateProportionalToCents, List.length_map, allocCents_length]
  · intro s hs
    rw [allocateProportionalToCents] at hs
    rcases List.mem_map.mp hs with ⟨c, _, rfl⟩
    exact hasTwoDecimals_centsToString c
  · intro hpos
    rw [allocateProportionalToCents, List.map_map]
    have hmap : (allocCents t ws).map (centsValue ∘ centsToString) = allocCents t ws := by
      have h1 : (allocCents t ws).map (centsValue ∘ centsToString) =
          (allocCents t ws).map id := by
        apply List.map_congr_left
        intro c _
        simp [Function.comp, centsValue_centsToString]
      rw [h1, List.map_id]
    rw [hmap]
    exact allocCents_sum t ws (ne_of_gt hpos)
  · intro hz
    have h0 : allocCents t ws = ws.map (fun _ => (0 : ℤ)) := by
      simp only [allocCents]
      rw [if_pos (Or.inr hz)]
    rw [allocateProportionalToCents, h0, List.map_map]
    apply List.map_congr_left
    intro w _
    show centsToString 0 = "0.00"
    decide

/-- Witness for C1 at total 10 and weights [1, 3]. -/
theorem c1_allocateProportional_spec_witness :
    (∀ w ∈ [(1 : ℚ), 3], 0 ≤ w) ∧
    ((allocateProportionalToCents 10 [1, 3]).length = ([(1 : ℚ), 3]).length ∧
     (∀ s ∈ allocateProportionalToCents 10 [1, 3], hasTwoDecimals s = true) ∧
     (0 < ([(1 : ℚ), 3]).sum →
       ((allocateProportionalToCents 10 [1, 3]).map centsValue).sum =
         jsRound ((10 : ℚ) * 100)) ∧
     (([(1 : ℚ), 3]).sum = 0 →
       allocateProportionalToCents 10 [1, 3] = [(1 : ℚ), 3].map (fun _ => "0.00"))) :=
  ⟨by intro w hw; fin_cases hw <;> norm_num,
   c1_allocateProportional_spec 10 [1, 3] (by intro w hw; fin_cases hw <;> norm_num)⟩

/-- C1 as frozen is false: the weights [0] are non-negative, yet with total 10 the
output is ["0.00"], whose cent sum 0 differs from round(10 * 100) = 1000. -/
theorem c1_counterexample :
    (∀ w ∈ [(0 : ℚ)], 0 ≤ w) ∧
    ((allocateProportionalToCents 10 [0]).map centsValue).sum ≠ jsRound ((10 : ℚ) * 100) := by
  constructor
  · intro w hw
    fin_cases hw
    norm_num
  · have h0 : allocCents 10 [0] = [0] := by
      simp only [allocCents]
      rw [if_pos (Or.inr (by simp))]
      rfl
    have hT : jsRound ((10 : ℚ) * 100) = 1000 := by norm_num [jsRound]
    simp only [allocateProportionalToCents, h0, hT]
    decide

/-! ## Claim C8: equal allocation -/

/-- C8 (amended): for every non-negative total amount and every positive count,
`divideEquallyInCents` returns a sequence of `count` two-decimal strings summing
exactly (in cents) to `round(total * 100)`, computed by integer-dividing the cents
by the count and giving the first remainder shares one extra cent; count 0 yields
the empty sequence, and `divideEquallyInCents 100 3 = ["33.34", "33.33", "33.33"]`.
(For a negative total the cent sum can differ from `round(total * 100)`, since the
code floors the base share but takes the truncating JavaScript remainder.) -/
theorem c8_allocateEqually_spec (t : ℚ) (n : ℕ) (ht : 0 ≤ t) (hn : 0 < n) :
    (divideEquallyInCents t n).length = n ∧
    (∀ s ∈ divideEquallyInCents t n, hasTwoDecimals s = true) ∧
    ((divideEquallyInCents t n).map centsValue).sum = jsRound (t * 100) ∧
    divideEquallyInCents t 0 = [] ∧
    divideEquallyInCents 100 3 = ["33.34", "33.33", "33.33"] := by
  refine ⟨?_, ?_, ?_, ?_, ?_⟩
  · rw [divideEquallyInCents, List.length_map, divideCents_length]
  · intro s hs
    rw [divideEquallyInCents] at hs
    rcases List.mem_map.mp hs with ⟨c, _, rfl⟩
    exact hasTwoDecimals_centsToString c
  · rw [divideEquallyInCents, List.map_map]
    have hmap : (divideCents t n).map (centsValue ∘ centsToString) = divideCents t n := by
      have h1 : (divideCents t n).map (centsValue ∘ centsToString) =
          (divideCents t n).map id := by
        apply List.map_congr_left
        intro c _
        simp [Function.comp, centsValue_centsToString]
      rw [h1, List.map_id]
    rw [hmap]
    exact divideCents_sum t n ht hn
  · simp [divideEquallyInCents, divideCents]
  · have hT : jsRound ((100 : ℚ) * 100) = 10000 := by norm_num [jsRound]
    have hdc : divideCents 100 3 = [3334, 3333, 3333] := by
      simp only [divideCents]
      rw [if_neg (by norm_num), hT]
      decide
    simp only [divideEquallyInCents, hdc]
    decide

/-- Witness for C8 at total 100 and count 3. -/
theorem c8_allocateEqually_spec_witness :
    (0 : ℚ) ≤ 100 ∧ 0 < 3 ∧
    ((divideEquallyInCents 100 3).length = 3 ∧
     (∀ s ∈ divideEquallyInCents 100 3, hasTwoDecimals s = true) ∧
     ((divideEquallyInCents 100 3).map centsValue).sum = jsRound ((100 : ℚ) * 100) ∧
     divideEquallyInCents 100 0 = [] ∧
     divideEquallyInCents 100 3 = ["33.34", "33.33", "33.33"]) :=
  ⟨by norm_num, by norm_num, c8_allocateEqually_spec 100 3 (by norm_num) (by norm_num)⟩

/-- C8 as frozen is false for negative totals: at total -0.05 and count 3 the code
floors the base share to -2 but the truncating remainder -2 schedules no extra
cents, so the output ["-0.02", "-0.02", "-0.02"] sums to -6 cents, not
round(-0.05 * 100) = -5. -/
theorem c8_counterexample :
    ((divideEquallyInCents (-1 / 20) 3).map centsValue).sum ≠
      jsRound ((-1 / 20 : ℚ) * 100) := by
  have hT : jsRound ((-1 / 20 : ℚ) * 100) = -5 := by norm_num [jsRound]
  have hdc : divideCents (-1 / 20) 3 = [-2, -2, -2] := by
    simp only [divideCents]
    rw [if_neg (by norm_num), hT]
    decide
  simp only [divideEquallyInCents, hdc, hT]
  decide

/-! ## Data model -/

/-- An importer Party as stored in `users.json` (`usersDb.data.users`). -/
structure User where
  id : String
  name : String
  tin : Option String
deriving Repr, DecidableEq

/-- An exporter Party as stored in `db.json` (`db.data.exporters`); `uid` is the
owning importer's identifier (may be absent: the PUT path can store `null`). -/
structure Exporter where
  id : String
  name : String
  tin : String
  address : String
  city : String
  state : String
  postalcode : String
  country : String
  phone : String
  uid : Option String
deriving Repr, DecidableEq

/-- An importer/exporter object as it appears inside a request payload or embedded
in a stored Declaration (all fields optional, JavaScript-style). -/
structure PartyRef where
  id : Option String := none
  number : Option String := none
  name : Option String := none
  address : Option String := none
  city : Option String := none
  state : Option String := none
  postalcode : Option String := none
  country : Option String := none
  phone : Option String := none
deriving Repr, DecidableEq

/-- The packages block of a Declaration or master bill. -/
structure Packages where
  pkgCount : Option String := none
  pkgType : Option String := none
  grossWt : Option String := none
  grossVol : Option String := none
  contents : Option String := none
deriving Repr, DecidableEq

/-- The valuation block; decimal amounts modelled as rationals. -/
structure Valuation where
  netCost : Option ℚ := none
  netFreight : Option ℚ := none
  netInsurance : Option ℚ := none
deriving Repr, DecidableEq

/-- A tariff line item, incoming or stored (`{...tariff}` spreads keep all fields). -/
structure Item where
  id : Option String := none
  cost : Option ℚ := none
  code : Option String := none
  desc : Option String := none
  qty : Option String := none
  qtyUnit : Option String := none
  invNumber : Option String := none
  procedureCode : Option String := none
  freight : Option String := none
  insurance : Option String := none
deriving Repr, DecidableEq

/-- A stored customs Declaration. -/
structure Declaration where
  id : String
  transportMode : Option String := none
  billNumber : Option String := none
  importer : Option PartyRef := none
  exporter : Option PartyRef := none
  packages : Option Packages := none
  valuation : Option Valuation := none
  items : List Item := []
deriving Repr, DecidableEq

/-- Reference tariff data (`db.data.tariffs`); the assembler probes several field
spellings for the unit. -/
structure TariffDef where
  code : Option String := none
  unit : Option String := none
  qtyUnit : Option String := none
  QtyUnit : Option String := none
deriving Repr, DecidableEq

/-- Master bill consignment block. -/
structure Consignment where
  departureDate : Option String := none
  arrivalDate : Option String := none
  shippingPort : Option String := none
  transportMode : Option String := none
deriving Repr, DecidableEq

/-- Master bill shipment block. -/
structure Shipment where
  vesselCode : Option String := none
  voyageNo : Option String := none
  shippingAgent : Option String := none
  billNumber : Option String := none
deriving Repr, DecidableEq

/-- A container entry of the master bill. -/
structure Container where
  containerNumber : Option String := none
  containerType : Option String := none
  sealNumber : Option String := none
  dockReceipt : Option String := none
  marksNumbers : Option String := none
  volume : Option String := none
  weight : Option String := none
deriving Repr, DecidableEq

/-- The master-bill context supplied to document generation. -/
structure MasterBill where
  consignment : Option Consignment := none
  shipment : Option Shipment := none
  packages : Option Packages := none
  containers : Option (List Container) := none
  exporter : Option PartyRef := none
deriving Repr, DecidableEq

/-- The persisted master-bill singleton (`db.data.masterBill`): the supplied
context wrapped with a generated id and timestamps. -/
structure MasterBillEntry where
  id : String
  createdAt : String
  updatedAt : String
  bill : MasterBill
deriving Repr, DecidableEq

/-- The `db.json` document store. -/
structure DB where
  declarations : List Declaration := []
  exporters : List Exporter := []
  tariffs : List TariffDef := []
  masterBill : Option MasterBillEntry := none
deriving Repr, DecidableEq

/-- The `users.json` document store. -/
structure UsersDB where
  users : List User := []
deriving Repr, DecidableEq

/-- A `POST /declarations` or `PUT /declarations/:id` request body. -/
structure DeclarationBody where
  transportMode : Option String := none
  billNumber : Option String := none
  importer : Option PartyRef := none
  exporter : Option PartyRef := none
  packages : Option Packages := none
  valuation : Option Valuation := none
  tariffs : Option (List Item) := none
  items : Option (List Item) := none
deriving Repr, DecidableEq

/-- Replace the first element satisfying `p` by its image under `f` (models the
JavaScript pattern of mutating the object returned by `Array.prototype.find`). -/
def replaceFirst (p : α → Bool) (f : α → α) : List α → List α
  | [] => []
  | x :: xs => if p x then f x :: xs else x :: replaceFirst p f xs

/-! ## Entity reconciliation (POST /declarations, PUT /declarations/:id) -/

/-- The importer reconciliation block, identical in `POST /declarations`
(server.js lines 122-145) and `PUT /declarations/:id` (lines 260-283): a truthy
`importer.id` is looked up in the users store and, when found, its `tin` is
overwritten from `importer.number` (nothing happens when not found); otherwise a
brand-new user is created with a fresh id.  Returns the updated users store, the
resolved `importerId`, the embedded importer reference to store, and the next
fresh index.  An entirely absent importer object makes the JavaScript code throw
(`importer.name` on `undefined`), modelled as `Except.error`. -/
def handleImporter (fresh : ℕ → String) (k : ℕ) (users : List User)
    (imp? : Option PartyRef) :
    Except Unit (List User × Option String × Option PartyRef × ℕ) :=
  match imp? with
  | none => .error ()
  | some imp =>
    if jsTruthyO imp.id then
      match users.find? (fun u => imp.id == some u.id) with
      | some u =>
        .ok (replaceFirst (fun x => imp.id == some x.id)
              (fun x => { x with tin := imp.number }) users,
            some u.id, some { imp with id := some u.id }, k)
      | none => .ok (users, none, some imp, k)
    else
      .ok (users ++ [{ id := fresh k, name := jsOrS imp.name "", tin := imp.number }],
        some (fresh k), some { imp with id := some (fresh k) }, k + 1)

/-- The exporter block of `POST /declarations` (server.js lines 147-196), guarded
by `if (importerId && exporter)`.  With a truthy `exporter.number` the store is
searched for a `(tin, owning importer)` match: a hit updates the descriptive
fields in place (incoming value when truthy, else the existing one) and reuses the
record; a miss appends a new Exporter.  Without a tin a new Exporter is always
appended.  Returns the exporters store, the embedded exporter reference, and the
next fresh index. -/
def handleExporterPost (fresh : ℕ → String) (k : ℕ) (exporters : List Exporter)
    (importerId : Option String) (expo? : Option PartyRef) :
    List Exporter × Option PartyRef × ℕ :=
  match importerId, expo? with
  | some iid, some expo =>
    if iid != "" then
      if jsTruthyO expo.number then
        match exporters.find? (fun x => expo.number == some x.tin && x.uid == some iid) with
        | some ex =>
          let upd : Exporter → Exporter := fun x =>
            { x with
              name := jsOrS expo.name x.name, address := jsOrS expo.address x.address,
              city := jsOrS expo.city x.city, state := jsOrS expo.state x.state,
              postalcode := jsOrS expo.postalcode x.postalcode,
              country := jsOrS expo.country x.country,
              phone := jsOrS expo.phone x.phone }
          (replaceFirst (fun x => expo.number == some x.tin && x.uid == some iid)
            upd exporters,
           some { expo with id := some ex.id }, k)
        | none =>
          let nx : Exporter :=
            { id := fresh k, name := jsOrS expo.name "",
              tin := jsOrS expo.number "", address := jsOrS expo.address "",
              city := jsOrS expo.city "", state := jsOrS expo.state "",
              postalcode := jsOrS expo.postalcode "", country := jsOrS expo.country "",
              phone := jsOrS expo.phone "", uid := some iid }
          (exporters ++ [nx], some { expo with id := some (fresh k) }, k + 1)
      else
        let nx : Exporter :=
          { id := fresh k, name := jsOrS expo.name "", tin := "",
            address := jsOrS expo.address "", city := jsOrS expo.city "",
            state := jsOrS expo.state "", postalcode := jsOrS expo.postalcode "",
            country := jsOrS expo.country "", phone := jsOrS expo.phone "",
            uid := some iid }
        (exporters ++ [nx], some { expo with id := some (fresh k) }, k + 1)
    else (exporters, expo?, k)
  | _, _ => (exporters, expo?, k)

/-- The tariff-processing map used by all three declaration-writing handlers:
`{...tariff, id: tariff.id || uuidv4(), freight: freightAlloc[idx], insurance:
insuranceAlloc[idx]}`, threading the fresh-id counter through items lacking a
truthy id.  Returns the processed items and the next fresh index. -/
def processTariffs (fresh : ℕ → String) :
    ℕ → ℕ → List Item → List String → List String → List Item × ℕ
  | k, _, [], _, _ => ([], k)
  | k, idx, t :: ts, fa, ia =>
    let tid := if jsTruthyO t.id then t.id.getD "" else fresh k
    let k' := if jsTruthyO t.id then k else k + 1
    let t' : Item :=
      { t with
        id := some tid
        freight := some (fa.getD idx "")
        insurance := some (ia.getD idx "") }
    let (rest, k'') := processTariffs fresh k' (idx + 1) ts fa ia
    (t' :: rest, k'')

/-- The allocation choice common to the handlers: read `netFreight` / `netCost` /
`netInsurance` from the valuation (absent values parse to 0), then allocate
proportionally to the items' costs when `netCost > 0`, else divide equally.
Returns the freight and insurance allocation string arrays.  (In the JavaScript
this `if (netCost > 0)` branch duplicates the mapping code; only the allocation
source differs, which is what this helper captures.) -/
def allocFor (valuation : Option Valuation) (ts : List Item) : List String × List String :=
  let netFreight := (valuation.bind (fun v => v.netFreight)).getD 0
  let netCost := (valuation.bind (fun v => v.netCost)).getD 0
  let netInsurance := (valuation.bind (fun v => v.netInsurance)).getD 0
  if netCost > 0 then
    let costNums := ts.map (fun t => t.cost.getD 0)
    (allocateProportionalToCents netFreight costNums,
     allocateProportionalToCents netInsurance costNums)
  else
    (divideEquallyInCents netFreight ts.length, divideEquallyInCents netInsurance ts.length)

/-- The `POST /declarations` handler (server.js lines 113-242): build the new
declaration with a fresh id and empty items, reconcile the importer then the
exporter, process the `tariffs` payload (if a non-empty array) through the
allocation rule, append the declaration and return it. -/
def postDeclarations (fresh : ℕ → String) (db : DB) (udb : UsersDB)
    (body : DeclarationBody) : Except Unit (DB × UsersDB × Declaration) :=
  let base : Declaration :=
    { id := fresh 0, transportMode := body.transportMode,
      billNumber := body.billNumber, importer := body.importer, exporter := body.exporter,
      packages := body.packages, valuation := body.valuation, items := [] }
  match handleImporter fresh 1 udb.users body.importer with
  | .error e => .error e
  | .ok (users', importerId, imp', k1) =>
    let (exporters', exp', k2) := handleExporterPost fresh k1 db.exporters importerId
      body.exporter
    let items :=
      match body.tariffs with
      | some ts =>
        if ts.length > 0 then
          let (fa, ia) := allocFor body.valuation ts
          (processTariffs fresh k2 0 ts fa ia).1
        else []
      | none => []
    let newDecl := { base with importer := imp', exporter := exp', items := items }
    let db' : DB :=
      { db with
        exporters := exporters'
        declarations := db.declarations ++ [newDecl] }
    .ok (db', { users := users' }, newDecl)

/-! ## Reconciliation lemmas -/

theorem find?_first_match {α} (p : α → Bool) (pre post : List α) (x : α)
    (hx : p x = true) (hpre : ∀ y ∈ pre, p y = false) :
    (pre ++ x :: post).find? p = some x := by
  induction pre with
  | nil => rw [List.nil_append, List.find?_cons_of_pos _ hx]
  | cons a as ih =>
    rw [List.cons_append,
      List.find?_cons_of_neg _ (by simp [hpre a (List.mem_cons_self a as)])]
    exact ih (fun y hy => hpre y (List.mem_cons_of_mem a hy))

theorem replaceFirst_first_match {α} (p : α → Bool) (f : α → α) (pre post : List α)
    (x : α) (hx : p x = true) (hpre : ∀ y ∈ pre, p y = false) :
    replaceFirst p f (pre ++ x :: post) = pre ++ f x :: post := by
  induction pre with
  | nil => simp [replaceFirst, hx]
  | cons a as ih =>
    rw [List.cons_append, replaceFirst, if_neg (by simp [hpre a (List.mem_cons_self a as)]),
      List.cons_append]
    rw [ih (fun y hy => hpre y (List.mem_cons_of_mem a hy))]

theorem handleExporterPost_expo_none (fresh : ℕ → String) (k : ℕ)
    (exporters : List Exporter) (iid? : Option String) :
    handleExporterPost fresh k exporters iid? none = (exporters, none, k) := by
  cases iid? <;> rfl

theorem handleExporterPost_no_importer (fresh : ℕ → String) (k : ℕ)
    (exporters : List Exporter) (expo? : Option PartyRef) :
    handleExporterPost fresh k exporters none expo? = (exporters, expo?, k) := by
  cases expo? <;> rfl

theorem handleImporter_some_ok (fresh : ℕ → String) (k : ℕ) (users : List User)
    (imp : PartyRef) : ∃ r, handleImporter fresh k users (some imp) = .ok r := by
  simp only [handleImporter]
  by_cases h : jsTruthyO imp.id = true
  · rw [if_pos h]
    cases users.find? (fun u => imp.id == some u.id) <;> exact ⟨_, rfl⟩
  · rw [if_neg h]
    exact ⟨_, rfl⟩

/-- Concrete fresh-identifier supply used in witnesses and counterexamples. -/
def uFresh (n : ℕ) : String := "u" ++ natRepr n

/-! ## Claim C2: importer reconciliation on declaration creation -/

/-- C2 (amended): on declaration creation, an importer payload whose identifier is
truthy but matches no stored Party performs no reconciliation at all — no Party is
created, the users and exporters stores are unchanged, and the declaration keeps
the supplied (unknown) identifier.  An importer payload with no identifier always
creates exactly one new Party with a freshly generated identifier, stores it, and
the declaration references that identifier (importers are never matched by name or
tin alone). -/
theorem c2_importer_reconciliation (fresh : ℕ → String) (db : DB) (udb : UsersDB)
    (body : DeclarationBody) (imp : PartyRef) (himp : body.importer = some imp) :
    (jsTruthyO imp.id = true →
      udb.users.find? (fun u => imp.id == some u.id) = none →
      ∃ db' udb' d, postDeclarations fresh db udb body = .ok (db', udb', d) ∧
        udb'.users = udb.users ∧ db'.exporters = db.exporters ∧
        d.importer = some imp) ∧
    (imp.id = none →
      ∃ db' udb' d, postDeclarations fresh db udb body = .ok (db', udb', d) ∧
        udb'.users = udb.users ++
          [{ id := fresh 1, name := jsOrS imp.name "", tin := imp.number }] ∧
        d.importer = some { imp with id := some (fresh 1) }) := by
  constructor
  · intro htr hfind
    have h1 : handleImporter fresh 1 udb.users body.importer =
        .ok (udb.users, none, some imp, 1) := by
      rw [himp]
      simp only [handleImporter]
      rw [if_pos htr, hfind]
    simp only [postDeclarations, h1, handleExporterPost_no_importer]
    exact ⟨_, _, _, rfl, rfl, rfl, rfl⟩
  · intro hid
    have h1 : handleImporter fresh 1 udb.users body.importer =
        .ok (udb.users ++ [{ id := fresh 1, name := jsOrS imp.name "", tin := imp.number }],
          some (fresh 1), some { imp with id := some (fresh 1) }, 2) := by
      rw [himp]
      simp only [handleImporter]
      rw [if_neg (by rw [hid]; simp [jsTruthyO])]
    simp only [postDeclarations, h1]
    exact ⟨_, _, _, rfl, rfl, rfl⟩

/-- Witness for C2: no-identifier importer payload { name := "Acme" } on empty stores. -/
theorem c2_importer_reconciliation_witness :
    (({ importer := some { name := some "Acme" } } : DeclarationBody).importer =
      some ({ name := some "Acme" } : PartyRef)) ∧
    ((jsTruthyO ({ name := some "Acme" } : PartyRef).id = true →
      ({} : UsersDB).users.find?
          (fun u => ({ name := some "Acme" } : PartyRef).id == some u.id) = none →
      ∃ db' udb' d, postDeclarations uFresh {} {}
          { importer := some { name := some "Acme" } } = .ok (db', udb', d) ∧
        udb'.users = ({} : UsersDB).users ∧ db'.exporters = ({} : DB).exporters ∧
        d.importer = some ({ name := some "Acme" } : PartyRef)) ∧
     (({ name := some "Acme" } : PartyRef).id = none →
      ∃ db' udb' d, postDeclarations uFresh {} {}
          { importer := some { name := some "Acme" } } = .ok (db', udb', d) ∧
        udb'.users = ({} : UsersDB).users ++
          [{ id := uFresh 1, name := jsOrS ({ name := some "Acme" } : PartyRef).name "",
             tin := ({ name := some "Acme" } : PartyRef).number }] ∧
        d.importer =
          some { ({ name := some "Acme" } : PartyRef) with id := some (uFresh 1) })) :=
  ⟨rfl, c2_importer_reconciliation uFresh {} {}
    { importer := some { name := some "Acme" } } { name := some "Acme" } rfl⟩

/-- C2 as frozen is false: an importer payload with the unknown identifier "X" on an
empty users store creates no Party at all (the store stays empty, not one entry),
while the declaration is still stored with the unknown identifier. -/
theorem c2_counterexample :
    (postDeclarations (fun _ => "F") {} {}
        { importer := some { id := some "X", number := some "T", name := some "N" } }).map
      (fun r => (r.2.1.users.length, r.2.2.importer)) =
      .ok (0, some ({ id := some "X", number := some "T", name := some "N" } : PartyRef)) ∧
    (0 : ℕ) ≠ 1 := by
  exact ⟨rfl, by decide⟩

/-! ## Claim C3: exporter tin reconciliation on declaration creation -/

/-- C3 (amended): for an exporter payload with a tin and no identifier (and a
resolved importer), a match on the (tin, owning-importer) pair reuses the existing
Exporter in place — no record is added or removed, the declaration references the
existing identifier, and each descriptive field is set to the incoming value when
that value is present and non-empty, otherwise left at its existing value (so it
only defaults to the empty string when both are absent).  When no such match
exists, a new Exporter linked to the importer is appended. -/
theorem c3_exporter_tin_reconciliation (fresh : ℕ → String) (k : ℕ)
    (pre post : List Exporter) (ex : Exporter) (expo : PartyRef) (iid : String)
    (hiid : iid ≠ "") (tn : String) (htin : expo.number = some tn) (htn : tn ≠ "")
    (_hid : expo.id = none) (hextin : ex.tin = tn) (hexuid : ex.uid = some iid)
    (hpre : ∀ y ∈ pre, ¬(y.tin = tn ∧ y.uid = some iid)) :
    handleExporterPost fresh k (pre ++ ex :: post) (some iid) (some expo) =
      (pre ++
        { ex with
          name := jsOrS expo.name ex.name
          address := jsOrS expo.address ex.address
          city := jsOrS expo.city ex.city
          state := jsOrS expo.state ex.state
          postalcode := jsOrS expo.postalcode ex.postalcode
          country := jsOrS expo.country ex.country
          phone := jsOrS expo.phone ex.phone } :: post,
       some { expo with id := some ex.id }, k) ∧
    ∀ exps : List Exporter,
      (∀ y ∈ exps, ¬(y.tin = tn ∧ y.uid = some iid)) →
      handleExporterPost fresh k exps (some iid) (some expo) =
        (exps ++
          [{ id := fresh k, name := jsOrS expo.name "", tin := jsOrS expo.number "",
             address := jsOrS expo.address "", city := jsOrS expo.city "",
             state := jsOrS expo.state "", postalcode := jsOrS expo.postalcode "",
             country := jsOrS expo.country "", phone := jsOrS expo.phone "",
             uid := some iid }],
         some { expo with id := some (fresh k) }, k + 1) := by
  have hfalse : ∀ y : Exporter, ¬(y.tin = tn ∧ y.uid = some iid) →
      (expo.number == some y.tin && y.uid == some iid) = false := by
    intro y hny
    rw [htin]
    by_cases h1 : y.tin = tn
    · have h2 : y.uid ≠ some iid := fun h2 => hny ⟨h1, h2⟩
      simp [h1, h2]
    · have h1' : tn ≠ y.tin := fun hh => h1 hh.symm
      simp [h1']
  have hbne : (iid != "") = true := by simp [hiid]
  have htrn : jsTruthyO expo.number = true := by
    rw [htin]
    simp [jsTruthyO, htn]
  constructor
  · have hpx : (expo.number == some ex.tin && ex.uid == some iid) = true := by
      rw [htin]
      simp [hextin, hexuid]
    have hpre' : ∀ y ∈ pre, (expo.number == some y.tin && y.uid == some iid) = false :=
      fun y hy => hfalse y (hpre y hy)
    simp only [handleExporterPost, hbne, htrn, if_true]
    rw [find?_first_match _ pre post ex hpx hpre',
      replaceFirst_first_match _ _ pre post ex hpx hpre']
  · intro exps hnone
    have hfind : exps.find? (fun x => expo.number == some x.tin && x.uid == some iid) =
        none := by
      rw [List.find?_eq_none]
      intro y hy
      simp [hfalse y (hnone y hy)]
    simp only [handleExporterPost, hbne, htrn, if_true, hfind]

/-- The stored exporter used in the C3 witness and counterexample. -/
def acmeExporter : Exporter :=
  { id := "E1", name := "Acme", tin := "T", address := "Old St", city := "",
    state := "", postalcode := "", country := "", phone := "", uid := some "I" }

/-- Witness for C3: matching exporter (tin "T", importer "I"), incoming name only. -/
theorem c3_exporter_tin_reconciliation_witness :
    (handleExporterPost uFresh 0 ([] ++ acmeExporter :: []) (some "I")
        (some { number := some "T", name := some "NewName" }) =
      ([] ++
        ({ acmeExporter with
           name := jsOrS (some "NewName") acmeExporter.name
           address := jsOrS none acmeExporter.address
           city := jsOrS none acmeExporter.city
           state := jsOrS none acmeExporter.state
           postalcode := jsOrS none acmeExporter.postalcode
           country := jsOrS none acmeExporter.country
           phone := jsOrS none acmeExporter.phone } : Exporter) :: [],
       some { id := some acmeExporter.id, number := some "T", name := some "NewName" },
       0)) ∧
    (∀ exps : List Exporter, (∀ y ∈ exps, ¬(y.tin = "T" ∧ y.uid = some "I")) →
      handleExporterPost uFresh 0 exps (some "I")
          (some { number := some "T", name := some "NewName" }) =
        (exps ++
          [{ id := uFresh 0, name := jsOrS (some "NewName") "",
             tin := jsOrS (some "T") "", address := jsOrS none "", city := jsOrS none "",
             state := jsOrS none "", postalcode := jsOrS none "",
             country := jsOrS none "", phone := jsOrS none "", uid := some "I" }],
         some { id := some (uFresh 0), number := some "T", name := some "NewName" },
         0 + 1)) :=
  c3_exporter_tin_reconciliation uFresh 0 [] [] acmeExporter
    { number := some "T", name := some "NewName" } "I" (by decide) "T" rfl (by decide)
    rfl rfl rfl (fun y hy => absurd hy (List.not_mem_nil y))

/-- C3 as frozen is false: an incoming exporter {number "T"} with the name absent
matches the stored exporter (tin "T", importer "I") whose name is "Acme"; the code
keeps "Acme" (the record is unchanged), it does not default the name to the empty
string as the claim states. -/
theorem c3_counterexample :
    handleExporterPost (fun _ => "F") 0 [acmeExporter] (some "I")
        (some { number := some "T" }) =
      ([acmeExporter], some { id := some "E1", number := some "T" }, 0) ∧
    acmeExporter.name = "Acme" ∧ "Acme" ≠ "" := by
  refine ⟨rfl, rfl, by decide⟩

/-! ## Claim C7: parties with neither identifier, tin, nor name -/

/-- C7 (amended): declaration creation does NOT treat an importer or exporter
payload object with neither identifier, tin, nor name as a no-op.  A present but
empty importer object still creates a new Party (empty name, absent tin) and sets
the embedded reference identifier; a present but empty exporter object (once an
importer was resolved) still creates a new all-empty-fields Exporter and sets the
reference identifier.  Only an entirely absent exporter object skips exporter
reconciliation and leaves the reference absent, and an entirely absent importer
object fails the whole request with no mutation. -/
theorem c7_empty_party_payload (fresh : ℕ → String) (db : DB) (udb : UsersDB)
    (body : DeclarationBody) :
    (∀ imp : PartyRef, body.importer = some imp → imp.id = none → imp.number = none →
      imp.name = none →
      ∃ db' udb' d, postDeclarations fresh db udb body = .ok (db', udb', d) ∧
        udb'.users = udb.users ++ [{ id := fresh 1, name := "", tin := none }] ∧
        d.importer = some { imp with id := some (fresh 1) }) ∧
    (∀ imp e : PartyRef, body.importer = some imp → imp.id = none → fresh 1 ≠ "" →
      body.exporter = some e → e.id = none → e.number = none → e.name = none →
      ∃ db' udb' d, postDeclarations fresh db udb body = .ok (db', udb', d) ∧
        db'.exporters = db.exporters ++
          [{ id := fresh 2, name := "", tin := "", address := jsOrS e.address "",
             city := jsOrS e.city "", state := jsOrS e.state "",
             postalcode := jsOrS e.postalcode "", country := jsOrS e.country "",
             phone := jsOrS e.phone "", uid := some (fresh 1) }] ∧
        d.exporter = some { e with id := some (fresh 2) }) ∧
    (∀ imp : PartyRef, body.importer = some imp → body.exporter = none →
      ∃ db' udb' d, postDeclarations fresh db udb body = .ok (db', udb', d) ∧
        db'.exporters = db.exporters ∧ d.exporter = none) ∧
    (body.importer = none → postDeclarations fresh db udb body = .error ()) := by
  refine ⟨?_, ?_, ?_, ?_⟩
  · intro imp himp hid hnum hname
    have h1 : handleImporter fresh 1 udb.users body.importer =
        .ok (udb.users ++ [{ id := fresh 1, name := jsOrS imp.name "", tin := imp.number }],
          some (fresh 1), some { imp with id := some (fresh 1) }, 2) := by
      rw [himp]
      simp only [handleImporter]
      rw [if_neg (by rw [hid]; simp [jsTruthyO])]
    simp only [postDeclarations, h1]
    refine ⟨_, _, _, rfl, ?_, rfl⟩
    rw [hname, hnum]
    rfl
  · intro imp e himp hid hfr hexp heid henum hename
    have h1 : handleImporter fresh 1 udb.users body.importer =
        .ok (udb.users ++ [{ id := fresh 1, name := jsOrS imp.name "", tin := imp.number }],
          some (fresh 1), some { imp with id := some (fresh 1) }, 2) := by
      rw [himp]
      simp only [handleImporter]
      rw [if_neg (by rw [hid]; simp [jsTruthyO])]
    have h2 : handleExporterPost fresh 2 db.exporters (some (fresh 1)) body.exporter =
        (db.exporters ++
          [{ id := fresh 2, name := jsOrS e.name "", tin := "",
             address := jsOrS e.address "", city := jsOrS e.city "",
             state := jsOrS e.state "", postalcode := jsOrS e.postalcode "",
             country := jsOrS e.country "", phone := jsOrS e.phone "",
             uid := some (fresh 1) }],
         some { e with id := some (fresh 2) }, 2 + 1) := by
      rw [hexp]
      simp only [handleExporterPost]
      rw [if_pos (by simp [hfr]), if_neg (by rw [henum]; simp [jsTruthyO])]
    simp only [postDeclarations, h1, h2]
    refine ⟨_, _, _, rfl, ?_, rfl⟩
    rw [hename]
    rfl
  · intro imp himp hexp
    obtain ⟨r, hr⟩ := handleImporter_some_ok fresh 1 udb.users imp
    rw [← himp] at hr
    simp only [postDeclarations, hr, hexp, handleExporterPost_expo_none]
    exact ⟨_, _, _, rfl, rfl, rfl⟩
  · intro himp
    simp only [postDeclarations, himp, handleImporter]

/-- Witness for C7: empty importer and exporter objects, an absent exporter, and
an absent importer, on empty stores. -/
theorem c7_empty_party_payload_witness :
    (∃ db' udb' d,
      postDeclarations uFresh {} {} { importer := some {}, exporter := some {} } =
        .ok (db', udb', d) ∧
      udb'.users = ({} : UsersDB).users ++ [{ id := uFresh 1, name := "", tin := none }] ∧
      d.importer = some { ({} : PartyRef) with id := some (uFresh 1) }) ∧
    (∃ db' udb' d,
      postDeclarations uFresh {} {} { importer := some {}, exporter := some {} } =
        .ok (db', udb', d) ∧
      db'.exporters = ({} : DB).exporters ++
        [{ id := uFresh 2, name := "", tin := "", address := jsOrS none "",
           city := jsOrS none "", state := jsOrS none "", postalcode := jsOrS none "",
           country := jsOrS none "", phone := jsOrS none "", uid := some (uFresh 1) }] ∧
      d.exporter = some { ({} : PartyRef) with id := some (uFresh 2) }) ∧
    (∃ db' udb' d,
      postDeclarations uFresh {} {} { importer := some {} } = .ok (db', udb', d) ∧
      db'.exporters = ({} : DB).exporters ∧ d.exporter = none) ∧
    postDeclarations uFresh {} {} {} = .error () :=
  ⟨(c7_empty_party_payload uFresh {} {} { importer := some {}, exporter := some {} }).1
      {} rfl rfl rfl rfl,
   (c7_empty_party_payload uFresh {} {} { importer := some {}, exporter := some {} }).2.1
      {} {} rfl rfl (by decide) rfl rfl rfl rfl,
   (c7_empty_party_payload uFresh {} {} { importer := some {} }).2.2.1 {} rfl rfl,
   (c7_empty_party_payload uFresh {} {} {}).2.2.2 rfl⟩

/-- C7 as frozen is false: an importer payload object with neither identifier, tin,
nor name still creates a Party — after the request the users store has one entry
(not zero) and the declaration's importer identifier is set (not absent). -/
theorem c7_counterexample :
    (postDeclarations (fun _ => "N") {} {} { importer := some {} }).map
        (fun r => (r.2.1.users.length, r.2.2.importer.bind (fun p => p.id))) =
      .ok (1, some "N") ∧ (1 : ℕ) ≠ 0 := by
  exact ⟨rfl, by decide⟩

/-! ## PUT /declarations/:id -/

/-- Outcomes of `PUT /declarations/:id`. -/
inductive PutError where
  | notFound
  | serverError
deriving Repr, DecidableEq

/-- The exporter block of `PUT /declarations/:id` (server.js lines 285-342), guarded
by `if (exporter?.id || exporter?.name)`.  With a truthy id the store is searched by
id: a hit attaches the importer when the record has no owner yet and overwrites each
field for which the payload carries a string; a miss creates a new Exporter with the
provided id verbatim (no fresh id).  With only a name a new Exporter with a fresh id
is created.  `uid` of a created record is `importerId || null`. -/
def handleExporterPut (fresh : ℕ → String) (k : ℕ) (exporters : List Exporter)
    (importerId : Option String) (expo? : Option PartyRef) :
    List Exporter × Option PartyRef × ℕ :=
  match expo? with
  | none => (exporters, none, k)
  | some expo =>
    if jsTruthyO expo.id || jsTruthyO expo.name then
      if jsTruthyO expo.id then
        match exporters.find? (fun x => expo.id == some x.id) with
        | some ex =>
          let upd : Exporter → Exporter := fun x =>
            { x with
              uid := if ¬jsTruthyO x.uid ∧ jsTruthyO importerId then importerId else x.uid
              name := if expo.name.isSome then expo.name.getD "" else x.name
              tin := if expo.number.isSome then expo.number.getD "" else x.tin
              address := if expo.address.isSome then expo.address.getD "" else x.address
              city := if expo.city.isSome then expo.city.getD "" else x.city
              state := if expo.state.isSome then expo.state.getD "" else x.state
              postalcode :=
                if expo.postalcode.isSome then expo.postalcode.getD "" else x.postalcode
              country := if expo.country.isSome then expo.country.getD "" else x.country
              phone := if expo.phone.isSome then expo.phone.getD "" else x.phone }
          (replaceFirst (fun x => expo.id == some x.id) upd exporters,
           some { expo with id := some ex.id }, k)
        | none =>
          let nx : Exporter :=
            { id := expo.id.getD "", name := jsOrS expo.name "",
              tin := jsOrS expo.number "", address := jsOrS expo.address "",
              city := jsOrS expo.city "", state := jsOrS expo.state "",
              postalcode := jsOrS expo.postalcode "", country := jsOrS expo.country "",
              phone := jsOrS expo.phone "",
              uid := if jsTruthyO importerId then importerId else none }
          (exporters ++ [nx], some { expo with id := some (expo.id.getD "") }, k)
      else
        let nx : Exporter :=
          { id := fresh k, name := jsOrS expo.name "", tin := jsOrS expo.number "",
            address := jsOrS expo.address "", city := jsOrS expo.city "",
            state := jsOrS expo.state "", postalcode := jsOrS expo.postalcode "",
            country := jsOrS expo.country "", phone := jsOrS expo.phone "",
            uid := if jsTruthyO importerId then importerId else none }
        (exporters ++ [nx], some { expo with id := some (fresh k) }, k + 1)
    else (exporters, expo?, k)

/-- The `PUT /declarations/:id` handler (server.js lines 245-396): 404 when the id
is not found; importer and exporter reconciliation as above; then the items are
recomputed from `updatedData.items` when that is an array, else from the existing
items, using `updatedData.valuation || existing.valuation` through the allocation
rule; an empty item source keeps the existing items as they are.  The declaration
is replaced wholesale by `{ ...updatedData, id, items }`. -/
def putDeclaration (fresh : ℕ → String) (db : DB) (udb : UsersDB) (did : String)
    (body : DeclarationBody) : Except PutError (DB × UsersDB × Declaration) :=
  match db.declarations.findIdx? (fun d => d.id == did) with
  | none => .error .notFound
  | some idx =>
    match handleImporter fresh 0 udb.users body.importer with
    | .error _ => .error .serverError
    | .ok (users', importerId, imp', k1) =>
      let (exporters', exp', k2) := handleExporterPut fresh k1 db.exporters importerId
        body.exporter
      let existingItems := (db.declarations.getD idx { id := "" }).items
      let incomingTariffs := body.items.getD existingItems
      let declarationValuation :=
        body.valuation <|> (db.declarations.getD idx { id := "" }).valuation
      let processed :=
        if incomingTariffs.length > 0 then
          let (fa, ia) := allocFor declarationValuation incomingTariffs
          (processTariffs fresh k2 0 incomingTariffs fa ia).1
        else existingItems
      let newDecl : Declaration :=
        { id := did, transportMode := body.transportMode, billNumber := body.billNumber,
          importer := imp', exporter := exp', packages := body.packages,
          valuation := body.valuation, items := processed }
      .ok ({ db with
             exporters := exporters'
             declarations := db.declarations.set idx newDecl },
           { users := users' }, newDecl)

theorem processTariffs_length (fresh : ℕ → String) :
    ∀ (ts : List Item) (k idx : ℕ) (fa ia : List String),
      (processTariffs fresh k idx ts fa ia).1.length = ts.length := by
  intro ts
  induction ts with
  | nil => intro k idx fa ia; rfl
  | cons t ts ih =>
    intro k idx fa ia
    simp only [processTariffs, List.length_cons]
    rw [ih]

theorem jsTruthyO_some_of_true {o : Option String} (h : jsTruthyO o = true) :
    ∃ s, o = some s ∧ s ≠ "" := by
  cases o with
  | none => simp [jsTruthyO] at h
  | some s =>
    refine ⟨s, rfl, ?_⟩
    simpa [jsTruthyO] using h

theorem processTariffs_truthy (fresh : ℕ → String) :
    ∀ (ts : List Item) (k idx0 : ℕ) (fa ia : List String),
      (∀ t ∈ ts, jsTruthyO t.id = true) →
      ∀ j, j < ts.length →
        (processTariffs fresh k idx0 ts fa ia).1.getD j {} =
          { ts.getD j {} with
            freight := some (fa.getD (idx0 + j) "")
            insurance := some (ia.getD (idx0 + j) "") } := by
  intro ts
  induction ts with
  | nil =>
    intro k idx0 fa ia _ j hj
    simp at hj
  | cons t ts ih =>
    intro k idx0 fa ia hids j hj
    obtain ⟨s, hs, _⟩ := jsTruthyO_some_of_true (hids t (List.mem_cons_self t ts))
    cases j with
    | zero =>
      simp only [processTariffs, hids t (List.mem_cons_self t ts), if_true, List.getD]
      simp [hs, Nat.add_zero]
    | succ j =>
      have hj' : j < ts.length := by simpa using hj
      have := ih (if jsTruthyO t.id then k else k + 1) (idx0 + 1) fa ia
        (fun u hu => hids u (List.mem_cons_of_mem t hu)) j hj'
      simp only [processTariffs, List.getD_cons_succ]
      rw [this]
      have harith : idx0 + 1 + j = idx0 + (j + 1) := by omega
      rw [harith]

/-! ## Claim C4: full update with no item list recomputes items in place -/

/-- C4 (confirmed): a full Declaration update that supplies no item list recomputes
the existing persisted items in place with the valuation figures from the update:
the stored declaration keeps one item per previous item, each equal to the previous
item (identifier included) except that its freight and insurance are replaced by the
allocation-rule shares computed from the new valuation over the existing items. -/
theorem c4_put_no_items_recompute (fresh : ℕ → String) (db : DB) (udb : UsersDB)
    (did : String) (body : DeclarationBody) (idx : ℕ) (decl : Declaration)
    (v : Valuation)
    (hidx : db.declarations.findIdx? (fun d => d.id == did) = some idx)
    (hdecl : db.declarations.getD idx { id := "" } = decl)
    (hitems : body.items = none)
    (hval : body.valuation = some v)
    (himp : body.importer.isSome = true)
    (hids : ∀ t ∈ decl.items, jsTruthyO t.id = true) :
    ∃ db' udb' d, putDeclaration fresh db udb did body = .ok (db', udb', d) ∧
      db'.declarations = db.declarations.set idx d ∧
      d.items.length = decl.items.length ∧
      ∀ j, j < decl.items.length →
        d.items.getD j {} =
          { decl.items.getD j {} with
            freight := some ((allocFor (some v) decl.items).1.getD j "")
            insurance := some ((allocFor (some v) decl.items).2.getD j "") } := by
  obtain ⟨imp, himp'⟩ := Option.isSome_iff_exists.mp himp
  obtain ⟨⟨users', importerId, imp', k1⟩, hr⟩ := handleImporter_some_ok fresh 0 udb.users imp
  rw [← himp'] at hr
  simp only [putDeclaration, hidx, hr, hitems, hdecl, hval, Option.getD_none,
    Option.some_orElse]
  refine ⟨_, _, _, rfl, rfl, ?_, ?_⟩
  · by_cases hlen : decl.items.length > 0
    · rw [if_pos hlen, processTariffs_length]
    · rw [if_neg hlen]
  · intro j hj
    by_cases hlen : decl.items.length > 0
    · rw [if_pos hlen, processTariffs_truthy fresh decl.items _ 0 _ _ hids j hj]
      simp
    · omega

/-- Inputs used by the C4 witness. -/
def c4val : Valuation := { netCost := some 0, netFreight := some 0, netInsurance := some 0 }

/-- The pre-existing declaration used by the C4 witness. -/
def c4decl : Declaration :=
  { id := "D1", items := [{ id := some "A", cost := some 5 }],
    valuation := some { netCost := some 2 } }

/-- The store used by the C4 witness. -/
def c4db : DB := { declarations := [c4decl] }

/-- The update body used by the C4 witness: importer only, new valuation, no items. -/
def c4body : DeclarationBody := { importer := some {}, valuation := some c4val }

/-- Witness for C4 at a one-item declaration and a zero-valuation update. -/
theorem c4_put_no_items_recompute_witness :
    ∃ db' udb' d, putDeclaration uFresh c4db {} "D1" c4body = .ok (db', udb', d) ∧
      db'.declarations = c4db.declarations.set 0 d ∧
      d.items.length = c4decl.items.length ∧
      ∀ j, j < c4decl.items.length →
        d.items.getD j {} =
          { c4decl.items.getD j {} with
            freight := some ((allocFor (some c4val) c4decl.items).1.getD j "")
            insurance := some ((allocFor (some c4val) c4decl.items).2.getD j "") } :=
  c4_put_no_items_recompute uFresh c4db {} "D1" c4body 0 c4decl c4val (by decide) rfl rfl
    rfl rfl (by decide)

/-! ## PUT /declarations/:id/tariffs -/

/-- Outcomes of `PUT /declarations/:id/tariffs`. -/
inductive TariffsError where
  | badRequest
  | notFound
  | serverError
deriving Repr, DecidableEq

/-- One step of the update-or-insert loop of the tariffs handler: replace the item
with the same id, or push at the end. -/
def upsertOne (cur : List Item) (u : Item) : List Item :=
  if (cur.findIdx? (fun t => t.id == u.id)).isSome then
    replaceFirst (fun t => t.id == u.id) (fun _ => u) cur
  else cur ++ [u]

/-- The `updatedTariffs.forEach` loop of the tariffs handler. -/
def upsertAll (cur : List Item) (us : List Item) : List Item :=
  us.foldl upsertOne cur

/-- The `PUT /declarations/:id/tariffs` handler (server.js lines 447-513): 400 when
the body has no `tariffs` array; 404 when the declaration is unknown; reading
`declaration.valuation.netFreight` throws when the declaration has no valuation
block.  Otherwise the incoming tariffs get ids (`tariff.id || uuidv4()`) and the
allocation-rule freight/insurance shares; stored items whose id is not among the
incoming final ids are removed, and each processed tariff then updates the item
with its id in place or is pushed at the end. -/
def putTariffs (fresh : ℕ → String) (db : DB) (did : String)
    (tariffs? : Option (List Item)) : Except TariffsError (DB × Declaration) :=
  match tariffs? with
  | none => .error .badRequest
  | some tariffs =>
    match db.declarations.find? (fun d => d.id == did) with
    | none => .error .notFound
    | some decl =>
      match decl.valuation with
      | none => .error .serverError
      | some v =>
        let (fa, ia) := allocFor (some v) tariffs
        let updated := (processTariffs fresh 0 0 tariffs fa ia).1
        let incomingKeys := updated.filterMap (fun u => u.id)
        let kept := decl.items.filter (fun t =>
          match t.id with
          | some s => incomingKeys.contains s
          | none => false)
        let newItems := upsertAll kept updated
        let newDecl := { decl with items := newItems }
        .ok ({ db with
               declarations := replaceFirst (fun d => d.id == did)
                 (fun d => { d with items := newItems }) db.declarations },
             newDecl)

theorem exists_of_findIdx?_isSome {α} (p : α → Bool) (l : List α)
    (h : (l.findIdx? p).isSome = true) : ∃ x ∈ l, p x = true :=
  List.any_eq_true.mp (by rw [← List.findIdx?_isSome]; exact h)

theorem forall_false_of_findIdx?_isSome_eq_false {α} (p : α → Bool) (l : List α)
    (h : (l.findIdx? p).isSome = false) : ∀ x ∈ l, p x = false := by
  intro x hx
  by_contra hpx
  have h1 : l.any p = true := List.any_eq_true.mpr ⟨x, hx, by simpa using hpx⟩
  rw [← List.findIdx?_isSome] at h1
  rw [h1] at h
  exact absurd h (by decide)

theorem replaceFirst_keys (u : Item) (cur : List Item) :
    (replaceFirst (fun t => t.id == u.id) (fun _ => u) cur).map (fun t => t.id) =
      cur.map (fun t => t.id) := by
  induction cur with
  | nil => rfl
  | cons t ts ih =>
    by_cases h : (t.id == u.id) = true
    · have hid : t.id = u.id := beq_iff_eq.mp h
      simp only [replaceFirst, if_pos h, List.map_cons]
      rw [hid]
    · simp only [replaceFirst, if_neg h, List.map_cons]
      rw [ih]

theorem map_find_replace (u : Item) (us : List Item) :
    ∀ cur : List Item, (cur.map (fun t => t.id)).Nodup →
      (∀ x ∈ us, x.id ≠ u.id) →
      (replaceFirst (fun t => t.id == u.id) (fun _ => u) cur).map
          (fun t => (us.find? (fun x => x.id == t.id)).getD t) =
        cur.map (fun t => (((u :: us).find? (fun x => x.id == t.id)).getD t)) := by
  intro cur
  induction cur with
  | nil => intro _ _; rfl
  | cons t ts ih =>
    intro hnd hus
    have hnd' : (ts.map (fun t => t.id)).Nodup := (List.nodup_cons.mp hnd).2
    have htid : t.id ∉ ts.map (fun t => t.id) := (List.nodup_cons.mp hnd).1
    by_cases h : (t.id == u.id) = true
    · have hid : t.id = u.id := beq_iff_eq.mp h
      simp only [replaceFirst, if_pos h, List.map_cons]
      have hhead : (us.find? (fun x => x.id == u.id)).getD u = u := by
        rw [List.find?_eq_none.mpr (fun x hx => by simp [hus x hx])]
        rfl
      have hhead2 : (((u :: us).find? (fun x => x.id == t.id)).getD t) = u := by
        rw [List.find?_cons_of_pos _ (by simp [hid])]
        rfl
      rw [hhead, hhead2]
      have htail : ts.map (fun x => (us.find? (fun y => y.id == x.id)).getD x) =
          ts.map (fun x => (((u :: us).find? (fun y => y.id == x.id)).getD x)) := by
        apply List.map_congr_left
        intro x hx
        have hx1 : x.id ≠ t.id := by
          intro hcc
          exact htid (by rw [← hcc]; exact List.mem_map_of_mem (fun t => t.id) hx)
        have hx2 : ¬(u.id == x.id) = true := by
          simp only [beq_iff_eq]
          rw [← hid]
          exact fun hc => hx1 hc.symm
        have hstep : List.find? (fun y => y.id == x.id) (u :: us) =
            List.find? (fun y => y.id == x.id) us :=
          List.find?_cons_of_neg _ hx2
        rw [hstep]
      rw [htail]
    · have hid : t.id ≠ u.id := by simpa using h
      simp only [replaceFirst, if_neg h, List.map_cons]
      have hstep : List.find? (fun x => x.id == t.id) (u :: us) =
          List.find? (fun x => x.id == t.id) us :=
        List.find?_cons_of_neg _
          (by simp only [beq_iff_eq]; exact fun hc => hid hc.symm)
      rw [hstep, ih hnd' hus]

theorem upsertAll_spec :
    ∀ (us cur : List Item),
      (cur.map (fun t => t.id)).Nodup → (us.map (fun t => t.id)).Nodup →
      upsertAll cur us =
        cur.map (fun t => (us.find? (fun u => u.id == t.id)).getD t) ++
          us.filter (fun u => !(cur.any (fun t => t.id == u.id))) := by
  intro us
  induction us with
  | nil =>
    intro cur _ _
    simp [upsertAll]
  | cons u us ih =>
    intro cur hc hu
    have hu2 : (∀ x ∈ us, ¬x.id = u.id) ∧ (us.map (fun t => t.id)).Nodup := by
      simpa using hu
    have hu' : (us.map (fun t => t.id)).Nodup := hu2.2
    have hus_ne : ∀ x ∈ us, x.id ≠ u.id := hu2.1
    have hanykeys : ∀ (l : List Item) (x : Item),
        l.any (fun t => t.id == x.id) =
          (l.map (fun t => t.id)).any (fun s => s == x.id) := by
      intro l x
      induction l with
      | nil => rfl
      | cons t ts ih =>
        simp only [List.any_cons, List.map_cons]
        rw [ih]
    rw [upsertAll, List.foldl_cons]
    change upsertAll (upsertOne cur u) us = _
    by_cases hmem : (cur.findIdx? (fun t => t.id == u.id)).isSome = true
    · have hone : upsertOne cur u = replaceFirst (fun t => t.id == u.id) (fun _ => u) cur := by
        rw [upsertOne, if_pos hmem]
      have hkeys : (replaceFirst (fun t => t.id == u.id) (fun _ => u) cur).map
          (fun t => t.id) = cur.map (fun t => t.id) := replaceFirst_keys u cur
      have hc' : ((replaceFirst (fun t => t.id == u.id) (fun _ => u) cur).map
          (fun t => t.id)).Nodup := by rw [hkeys]; exact hc
      rw [hone, ih _ hc' hu']
      have hmap := map_find_replace u us cur hc hus_ne
      have hfilter : us.filter (fun x =>
          !((replaceFirst (fun t => t.id == u.id) (fun _ => u) cur).any
            (fun t => t.id == x.id))) =
          us.filter (fun x => !(cur.any (fun t => t.id == x.id))) := by
        apply List.filter_congr
        intro x _
        rw [hanykeys _ x, hanykeys cur x, hkeys]
      have hcurany : cur.any (fun t => t.id == u.id) = true := by
        rw [← List.findIdx?_isSome]
        exact hmem
      rw [hmap, hfilter]
      congr 1
      rw [List.filter_cons]
      simp [hcurany]
    · have hone : upsertOne cur u = cur ++ [u] := by
        rw [upsertOne, if_neg hmem]
      have hforall : ∀ t ∈ cur, (t.id == u.id) = false :=
        forall_false_of_findIdx?_isSome_eq_false _ _ (by simpa using hmem)
      have hcid : ∀ t ∈ cur, t.id ≠ u.id := by
        intro t ht hc2
        have := hforall t ht
        rw [hc2] at this
        simp at this
      have huc : u.id ∉ cur.map (fun t => t.id) := by
        intro hmm
        rcases List.mem_map.mp hmm with ⟨t, ht, hteq⟩
        exact hcid t ht hteq
      have hc'' : ((cur ++ [u]).map (fun t => t.id)).Nodup := by
        rw [List.map_append, List.nodup_append]
        refine ⟨hc, by simp, ?_⟩
        intro a ha hb
        simp only [List.map_cons, List.map_nil, List.mem_singleton] at hb
        exact huc (hb ▸ ha)
      rw [hone, ih _ hc'' hu']
      have hFusu : (us.find? (fun x => x.id == u.id)).getD u = u := by
        rw [List.find?_eq_none.mpr (fun x hx => by simp [hus_ne x hx])]
        rfl
      have hmapc : cur.map (fun t => (us.find? (fun x => x.id == t.id)).getD t) =
          cur.map (fun t => (((u :: us).find? (fun x => x.id == t.id)).getD t)) := by
        apply List.map_congr_left
        intro t ht
        have hstep : List.find? (fun x => x.id == t.id) (u :: us) =
            List.find? (fun x => x.id == t.id) us :=
          List.find?_cons_of_neg _
            (by simp only [beq_iff_eq]; exact fun hcc => (hcid t ht) hcc.symm)
        rw [hstep]
      have hfilter2 : us.filter (fun x => !((cur ++ [u]).any (fun t => t.id == x.id))) =
          us.filter (fun x => !(cur.any (fun t => t.id == x.id))) := by
        apply List.filter_congr
        intro x hx
        have hux : (u.id == x.id) = false := by
          simp only [beq_eq_false_iff_ne, ne_eq]
          exact fun hcc => (hus_ne x hx) hcc.symm
        rw [List.any_append]
        simp [hux]
      have hanyu : cur.any (fun t => t.id == u.id) = false := by
        rw [← List.findIdx?_isSome]
        simpa using hmem
      rw [List.map_append, hmapc, hfilter2]
      have hum : [u].map (fun t => (us.find? (fun x => x.id == t.id)).getD t) = [u] := by
        simp [hFusu]
      rw [hum, List.filter_cons]
      simp only [hanyu, Bool.not_false, if_true]
      rw [List.append_assoc]
      rfl

theorem processTariffs_pointwise (fresh : ℕ → String) :
    ∀ (ts : List Item) (k idx0 : ℕ) (fa ia : List String) (j : ℕ), j < ts.length →
      ∃ m, (processTariffs fresh k idx0 ts fa ia).1.getD j {} =
        { ts.getD j {} with
          id := some (if jsTruthyO (ts.getD j {}).id then (ts.getD j {}).id.getD ""
            else fresh m)
          freight := some (fa.getD (idx0 + j) "")
          insurance := some (ia.getD (idx0 + j) "") } := by
  intro ts
  induction ts with
  | nil =>
    intro k idx0 fa ia j hj
    simp at hj
  | cons t ts ih =>
    intro k idx0 fa ia j hj
    cases j with
    | zero =>
      refine ⟨k, ?_⟩
      simp only [processTariffs, List.getD_cons_zero]
      by_cases ht : jsTruthyO t.id = true <;> simp [ht]
    | succ j =>
      have hj' : j < ts.length := by simpa using hj
      obtain ⟨m, hm⟩ := ih (if jsTruthyO t.id then k else k + 1) (idx0 + 1) fa ia j hj'
      refine ⟨m, ?_⟩
      simp only [processTariffs, List.getD_cons_succ]
      rw [hm]
      have harith : idx0 + 1 + j = idx0 + (j + 1) := by omega
      rw [harith]

/-! ## Claim C5: wholesale item-list replacement -/

/-- C5 (amended): replacing an existing Declaration's item list is a wholesale
replacement.  Each incoming item is first processed into `updated`: it keeps its
supplied identifier when one is present (whether or not it matches anything), and
receives a freshly generated identifier only when it has none; its freight and
insurance come from the allocation rule over the declaration's valuation.  Every
previously persisted item whose identifier is absent from the final incoming
identifier set is dropped; the retained items are fully overwritten in place by
their incoming versions, and the remaining incoming items are appended. -/
theorem c5_tariffs_replace (fresh : ℕ → String) (db : DB) (did : String)
    (ts : List Item) (decl : Declaration) (v : Valuation) (updated : List Item)
    (hfind : db.declarations.find? (fun d => d.id == did) = some decl)
    (hval : decl.valuation = some v)
    (hup : (processTariffs fresh 0 0 ts (allocFor (some v) ts).1
        (allocFor (some v) ts).2).1 = updated)
    (hcurN : (decl.items.map (fun t => t.id)).Nodup)
    (hupN : (updated.map (fun t => t.id)).Nodup) :
    ∃ db' d', putTariffs fresh db did (some ts) = .ok (db', d') ∧
      d'.items =
        (decl.items.filter (fun t =>
            match t.id with
            | some s => (updated.filterMap (fun u => u.id)).contains s
            | none => false)).map
          (fun t => (updated.find? (fun u => u.id == t.id)).getD t) ++
        updated.filter (fun u =>
          !((decl.items.filter (fun t =>
              match t.id with
              | some s => (updated.filterMap (fun u => u.id)).contains s
              | none => false)).any (fun t => t.id == u.id))) ∧
      db'.declarations = replaceFirst (fun d => d.id == did)
        (fun d => { d with items := d'.items }) db.declarations ∧
      (∀ j, j < ts.length → ∃ m,
        updated.getD j {} =
          { ts.getD j {} with
            id := some (if jsTruthyO (ts.getD j {}).id then (ts.getD j {}).id.getD ""
              else fresh m)
            freight := some ((allocFor (some v) ts).1.getD j "")
            insurance := some ((allocFor (some v) ts).2.getD j "") }) := by
  have hkeptN : ((decl.items.filter (fun t =>
      match t.id with
      | some s => (updated.filterMap (fun u => u.id)).contains s
      | none => false)).map (fun t => t.id)).Nodup := by
    have hsub : ((decl.items.filter (fun t =>
        match t.id with
        | some s => (updated.filterMap (fun u => u.id)).contains s
        | none => false)).map (fun t => t.id)).Sublist
        (decl.items.map (fun t => t.id)) :=
      List.Sublist.map _ (List.filter_sublist decl.items)
    exact hsub.nodup hcurN
  have hspec := upsertAll_spec updated
    (decl.items.filter (fun t =>
      match t.id with
      | some s => (updated.filterMap (fun u => u.id)).contains s
      | none => false)) hkeptN hupN
  simp only [putTariffs, hfind, hval, hup]
  refine ⟨_, _, rfl, ?_, ?_, ?_⟩
  · exact hspec
  · rfl
  · intro j hj
    obtain ⟨m, hm⟩ := processTariffs_pointwise fresh ts 0 0
      (allocFor (some v) ts).1 (allocFor (some v) ts).2 j hj
    rw [hup] at hm
    exact ⟨m, by simpa using hm⟩

/-- Valuation used by the C5 witness and counterexample (netCost 0: equal split). -/
def c5v : Valuation := { netCost := some 0 }

/-- The pre-existing declaration used by the C5 witness and counterexample. -/
def c5decl : Declaration :=
  { id := "D5", items := [{ id := some "A", cost := some 1 }, { id := some "B" }],
    valuation := some c5v }

/-- The store used by the C5 witness and counterexample. -/
def c5db : DB := { declarations := [c5decl] }

/-- The incoming tariffs of the C5 witness: one retained item with a new cost and
one brand-new entry with no id. -/
def c5ts : List Item := [{ id := some "A", cost := some 7 }, {}]

/-- The processed form of `c5ts`. -/
def c5updated : List Item :=
  [{ id := some "A", cost := some 7, freight := some "0.00", insurance := some "0.00" },
   { id := some (uFresh 0), freight := some "0.00", insurance := some "0.00" }]

theorem c5_alloc : allocFor (some c5v) c5ts = (["0.00", "0.00"], ["0.00", "0.00"]) := by
  have hjz : jsRound ((0 : ℚ) * 100) = 0 := by norm_num [jsRound]
  simp only [allocFor, c5v, c5ts, Option.some_bind, Option.getD_some, Option.getD_none,
    divideEquallyInCents, divideCents, hjz]
  decide

theorem c5_hup :
    (processTariffs uFresh 0 0 c5ts (allocFor (some c5v) c5ts).1
      (allocFor (some c5v) c5ts).2).1 = c5updated := by
  rw [c5_alloc]
  decide

/-- Witness for C5: items [A, B], incoming [{A, cost 7}, {no id}]. -/
theorem c5_tariffs_replace_witness :
    ∃ db' d', putTariffs uFresh c5db "D5" (some c5ts) = .ok (db', d') ∧
      d'.items =
        (c5decl.items.filter (fun t =>
            match t.id with
            | some s => (c5updated.filterMap (fun u => u.id)).contains s
            | none => false)).map
          (fun t => (c5updated.find? (fun u => u.id == t.id)).getD t) ++
        c5updated.filter (fun u =>
          !((c5decl.items.filter (fun t =>
              match t.id with
              | some s => (c5updated.filterMap (fun u => u.id)).contains s
              | none => false)).any (fun t => t.id == u.id))) ∧
      db'.declarations = replaceFirst (fun d => d.id == "D5")
        (fun d => { d with items := d'.items }) c5db.declarations ∧
      (∀ j, j < c5ts.length → ∃ m,
        c5updated.getD j {} =
          { c5ts.getD j {} with
            id := some (if jsTruthyO (c5ts.getD j {}).id then (c5ts.getD j {}).id.getD ""
              else uFresh m)
            freight := some ((allocFor (some c5v) c5ts).1.getD j "")
            insurance := some ((allocFor (some c5v) c5ts).2.getD j "") }) :=
  c5_tariffs_replace uFresh c5db "D5" c5ts c5decl c5v c5updated (by decide) rfl c5_hup
    (by decide) (by decide)

theorem c5x_alloc : allocFor (some c5v) [{ id := some "Z" }] = (["0.00"], ["0.00"]) := by
  have hjz : jsRound ((0 : ℚ) * 100) = 0 := by norm_num [jsRound]
  simp only [allocFor, c5v, Option.some_bind, Option.getD_some, Option.getD_none,
    divideEquallyInCents, divideCents, hjz]
  decide

/-- C5 as frozen is false: the incoming item carries the identifier "Z", which
matches no retained identifier (the previous items A and B are both dropped), yet
the stored item keeps "Z" — it does not receive a freshly generated identifier
(the fresh supply only ever returns "F"). -/
theorem c5_counterexample :
    (putTariffs (fun _ => "F") c5db "D5" (some [{ id := some "Z" }])).map
        (fun r => r.2.items.map (fun t => t.id)) = .ok [some "Z"] ∧
    "Z" ≠ "F" := by
  constructor
  · have hfind0 : c5db.declarations.find? (fun d => d.id == "D5") = some c5decl := by
      decide
    have hval0 : c5decl.valuation = some c5v := rfl
    simp only [putTariffs, hfind0, hval0, c5x_alloc]
    rfl
  · decide

/-! ## DELETE /declarations (bulk) -/

/-- The `ids` field of a bulk-delete request body: absent, present but not an
array, or an array of identifiers. -/
inductive IdsField where
  | absent
  | notArray
  | arr (ids : List String)
deriving Repr, DecidableEq

/-- The bulk `DELETE /declarations` handler (server.js lines 411-436): reject with
400 when `ids` is missing, not an array, or empty; otherwise remove exactly the
declarations whose id is in `ids` and report the before/after difference. -/
def bulkDeleteDeclarations (db : DB) (ids : IdsField) : Except Unit (DB × ℕ) :=
  match ids with
  | .arr l =>
    if l.length = 0 then .error ()
    else
      let initialCount := db.declarations.length
      let remaining := db.declarations.filter (fun d => !(l.contains d.id))
      .ok ({ db with declarations := remaining }, initialCount - remaining.length)
  | _ => .error ()

theorem filter_length_split {α} (p : α → Bool) (l : List α) :
    (l.filter p).length + (l.filter (fun a => !(p a))).length = l.length := by
  induction l with
  | nil => rfl
  | cons x xs ih =>
    by_cases h : p x = true <;>
      simp only [List.filter_cons, h, Bool.not_true, Bool.not_false, if_true, if_false,
        Bool.false_eq_true, List.length_cons] <;>
      omega

/-! ## Claim C9: bulk delete -/

/-- C9 (amended): bulk delete with a non-empty identifier array removes exactly the
Declarations whose identifiers appear in the array (nonexistent identifiers are
silently ignored) and reports deletedCount as the difference between the collection
sizes before and after the removal, which equals the number of declarations whose
id is in the requested set; a missing, non-array, or EMPTY identifier list is
rejected before any mutation occurs. -/
theorem c9_bulk_delete (db : DB) :
    (∀ l : List String, l ≠ [] →
      ∃ db' c, bulkDeleteDeclarations db (.arr l) = .ok (db', c) ∧
        (∀ d : Declaration, d ∈ db'.declarations ↔
          d ∈ db.declarations ∧ ¬(l.contains d.id = true)) ∧
        c = db.declarations.length - db'.declarations.length ∧
        c = (db.declarations.filter (fun d => l.contains d.id)).length ∧
        db'.exporters = db.exporters ∧ db'.masterBill = db.masterBill) ∧
    bulkDeleteDeclarations db .absent = .error () ∧
    bulkDeleteDeclarations db .notArray = .error () ∧
    bulkDeleteDeclarations db (.arr []) = .error () := by
  refine ⟨?_, rfl, rfl, rfl⟩
  intro l hl
  have hne : ¬(l.length = 0) := by
    intro h0
    exact hl (List.length_eq_zero.mp h0)
  simp only [bulkDeleteDeclarations, if_neg hne]
  refine ⟨_, _, rfl, ?_, ?_, ?_, rfl, rfl⟩
  · intro d
    constructor
    · intro hd
      have := List.mem_filter.mp hd
      exact ⟨this.1, by simpa using this.2⟩
    · intro ⟨hd, hnc⟩
      exact List.mem_filter.mpr ⟨hd, by simpa using hnc⟩
  · rfl
  · have hsplit := filter_length_split (fun d : Declaration => l.contains d.id)
      db.declarations
    omega

/-- Witness for C9: store with one declaration "a", request ["a", "b"]. -/
theorem c9_bulk_delete_witness :
    (∀ l : List String, l ≠ [] →
      ∃ db' c,
        bulkDeleteDeclarations { declarations := [{ id := "a" }] } (.arr l) =
          .ok (db', c) ∧
        (∀ d : Declaration, d ∈ db'.declarations ↔
          d ∈ ({ declarations := [{ id := "a" }] } : DB).declarations ∧
            ¬(l.contains d.id = true)) ∧
        c = ({ declarations := [{ id := "a" }] } : DB).declarations.length -
          db'.declarations.length ∧
        c = (({ declarations := [{ id := "a" }] } : DB).declarations.filter
          (fun d => l.contains d.id)).length ∧
        db'.exporters = ({ declarations := [{ id := "a" }] } : DB).exporters ∧
        db'.masterBill = ({ declarations := [{ id := "a" }] } : DB).masterBill) ∧
    bulkDeleteDeclarations { declarations := [{ id := "a" }] } .absent = .error () ∧
    bulkDeleteDeclarations { declarations := [{ id := "a" }] } .notArray = .error () ∧
    bulkDeleteDeclarations { declarations := [{ id := "a" }] } (.arr []) = .error () :=
  c9_bulk_delete { declarations := [{ id := "a" }] }

/-- C9 as frozen is false on the empty identifier array: the code rejects it with a
validation error instead of succeeding with deletedCount 0 as the claim's universal
description would have it. -/
theorem c9_counterexample :
    bulkDeleteDeclarations { declarations := [{ id := "a" }] } (.arr []) = .error () ∧
    ([] : List String).length = 0 := by
  exact ⟨rfl, rfl⟩

/-! ## Document assembly (structureDataForXml) -/

/-- The JavaScript object tree fed to `js2xml` (compact convention: `_text`,
`_attributes`, nested objects and arrays; `undefined` is an undefined value). -/
inductive JsVal where
  | undefined : JsVal
  | s : String → JsVal
  | q : ℚ → JsVal
  | obj : List (String × JsVal) → JsVal
  | arr : List JsVal → JsVal

/-- `{ _text: <literal string> }`. -/
def textS (v : String) : JsVal := .obj [("_text", .s v)]

/-- `{ _text: <possibly-undefined string> }`. -/
def textO (o : Option String) : JsVal :=
  .obj [("_text", match o with | some v => .s v | none => .undefined)]

/-- `{ _text: <possibly-undefined number> }`. -/
def textQ (o : Option ℚ) : JsVal :=
  .obj [("_text", match o with | some v => .q v | none => .undefined)]

/-- JavaScript `String(x)` on a possibly-undefined string. -/
def strCoerce (o : Option String) : String := o.getD "undefined"

/-- One tariff line of a consolidated item (server.js lines 717-737): the unit is
looked up in the tariff reference data by `String(td.code) === String(tariff.code)`
through the chain `td?.unit || td?.qtyUnit || td?.QtyUnit || tariff.qtyUnit || 'LB'`. -/
def tariffLineXml (tariffDefs : List TariffDef) (importerNumber : Option String)
    (tariff : Item) : JsVal :=
  let tariffDef := tariffDefs.find? (fun td => strCoerce td.code == strCoerce tariff.code)
  let qtyUnit := jsOrS (tariffDef.bind (fun td => td.unit))
    (jsOrS (tariffDef.bind (fun td => td.qtyUnit))
      (jsOrS (tariffDef.bind (fun td => td.QtyUnit))
        (jsOrS tariff.qtyUnit "LB")))
  .obj [("Code", textO tariff.code), ("Desc", textO tariff.desc),
        ("Origin", textS "USA"), ("Qty", textO tariff.qty),
        ("QtyUnit", textS qtyUnit), ("Cost", textQ tariff.cost),
        ("Insurance", textO tariff.insurance), ("Freight", textO tariff.freight),
        ("InvNumber", textO tariff.invNumber),
        ("Procedure", .obj [("Code", textO tariff.procedureCode),
                            ("ImporterNumber", textO importerNumber)])]

/-- One `ConsolidatedItem` block (server.js lines 685-739).  The unguarded
accesses `item.importer.number`, `item.packages.pkgCount` and
`item.valuation.netCost` throw when the block is absent (`Except.error`); the
exporter sub-block is a bare `{Number}` reference when `item.exporter?.number` is
truthy and a descriptive address block otherwise. -/
def consolidatedItemXml (tariffDefs : List TariffDef) (item : Declaration) :
    Except Unit JsVal :=
  match item.importer, item.packages, item.valuation with
  | some imp, some pk, some v =>
    .ok (.obj [
      ("Importer", .obj [("Number", textO imp.number)]),
      ("Exporter",
        if jsTruthyO (item.exporter.bind (fun e => e.number)) then
          .obj [("Number", textO (item.exporter.bind (fun e => e.number)))]
        else
          .obj [("Name", textS (jsOrS (item.exporter.bind (fun e => e.name)) "")),
                ("Address", textS (jsOrS (item.exporter.bind (fun e => e.address)) "")),
                ("City", textS (jsOrS (item.exporter.bind (fun e => e.city)) "")),
                ("State", textS (jsOrS (item.exporter.bind (fun e => e.state)) "")),
                ("PostalCode",
                  textS (jsOrS (item.exporter.bind (fun e => e.postalcode)) "")),
                ("Country", textS (jsOrS (item.exporter.bind (fun e => e.country)) "")),
                ("Phone", textS (jsOrS (item.exporter.bind (fun e => e.phone)) ""))]),
      ("Finance", .obj []),
      ("BillNumber", textO item.billNumber),
      ("Packages", .obj [("PkgCount", textO pk.pkgCount), ("PkgType", textO pk.pkgType),
        ("GrossWt", textO pk.grossWt), ("GrossWtUnit", textS "LB"),
        ("GrossVol", textO pk.grossVol), ("GrossVolUnit", textS "CF"),
        ("Contents", textO pk.contents), ("CategoryOfGoods", textS "1")]),
      ("Valuation", .obj [("Currency", textS "USD"), ("NetCost", textQ v.netCost),
        ("NetInsurance", textQ v.netInsurance), ("NetFreight", textQ v.netFreight),
        ("TermsOfDelivery", textS "FOB")]),
      ("Items", .arr (item.items.map (tariffLineXml tariffDefs imp.number))),
      ("MoneyDeclaredFlag", textS "N")])
  | _, _, _ => .error ()

/-- One container entry of the master bill (server.js lines 745-759). -/
def containerXml (container : Container) : JsVal :=
  .obj [("ContainerNumber", textS (jsOrS container.containerNumber "")),
        ("ContainerType", textS (jsOrS container.containerType "")),
        ("SealNumber", textS (jsOrS container.sealNumber "")),
        ("DockReceipt", textS (jsOrS container.dockReceipt "")),
        ("MarksAndNumbers", textS (jsOrS container.marksNumbers "")),
        ("CubicSize", textS (jsOrS container.volume "")),
        ("CubicUnit", textS "CF"),
        ("GrossWt", textS (jsOrS container.weight "")),
        ("GrossWtUnit", textS "LB")]

/-- `structureDataForXml` (server.js lines 637-763).  `today` is the generation
date; `tariffDefs` is `db.data.tariffs`, which the function reads.  The unguarded
access `masterBill.packages.pkgType` throws when the packages block is absent.
The header `Exporter` block is the hard-coded Novotrans address block (the
number-reference variant is commented out in the source). -/
def structureDataForXml (today : String) (tariffDefs : List TariffDef)
    (consolidatedItems : List Declaration) (masterBill : MasterBill) :
    Except Unit JsVal :=
  match masterBill.packages with
  | none => .error ()
  | some mbp =>
    match consolidatedItems.mapM (consolidatedItemXml tariffDefs) with
    | .error e => .error e
    | .ok itemsXml =>
      let mode := masterBill.consignment.bind (fun c => c.transportMode)
      let containers :=
        match masterBill.containers with
        | some cs => if cs.length > 0 then cs.map containerXml else []
        | none => []
      .ok (.obj [
        ("_declaration", .obj [("_attributes",
          .obj [("version", .s "1.0"), ("encoding", .s "UTF-8")])]),
        ("SADEntry", .obj [
          ("Date", textS today),
          ("Regime", textS "IM1"),
          ("Importer", .obj [("Number", textS "20738450")]),
          ("Exporter", .obj [("Name", textS "Novotrans"),
            ("Address", textS "6371 NW 102nd Ave"), ("City", textS "Doral"),
            ("State", textS "FL"), ("PostalCode", textS "33178"),
            ("Country", textS "USA")]),
          ("Finance", .obj []),
          ("Consignment", .obj [
            ("DepartureDate",
              textS (jsOrS (masterBill.consignment.bind (fun c => c.departureDate)) "")),
            ("ArrivalDate",
              textS (jsOrS (masterBill.consignment.bind (fun c => c.arrivalDate)) "")),
            ("ExportCountry", textS "USA"),
            ("ImportCountry", textS "USA"),
            ("ShippingPort",
              textS (jsOrS (masterBill.consignment.bind (fun c => c.shippingPort)) "")),
            ("DischargePort", textS (if mode == some "SEA" then "KYGEC" else "KYGCM")),
            ("TransportMode", textS (jsOrS mode ""))]),
          ("Shipment", .obj [
            ("VesselCode",
              textS (jsOrS (masterBill.shipment.bind (fun sh => sh.vesselCode)) "")),
            ("VoyageNo",
              textS (jsOrS (masterBill.shipment.bind (fun sh => sh.voyageNo)) "")),
            ("ShippingAgent",
              textS (jsOrS (masterBill.shipment.bind (fun sh => sh.shippingAgent)) "")),
            ("BillNumber",
              textS (jsOrS (masterBill.shipment.bind (fun sh => sh.billNumber)) "")),
            ("BillType", textS "CONSOLIDATED")]),
          ("Container", .arr containers),
          ("Packages", .obj [
            ("PkgCount", textS (jsOrS mbp.pkgCount "")),
            ("PkgType", textO mbp.pkgType),
            ("GrossWt", textS (jsOrS mbp.grossWt "")),
            ("GrossWtUnit", textS "LB"),
            ("GrossVol", textS (jsOrS mbp.grossVol "")),
            ("GrossVolUnit", textS "CF"),
            ("Contents", textS (jsOrS mbp.contents "")),
            ("CategoryOfGoods", textS "1")]),
          ("MoneyDeclaredFlag", textS "N"),
          ("ConsolidatedShipment", .obj [("ConsolidatedItem", .arr itemsXml)])])])

/-- Field lookup in a `JsVal` object. -/
def getField (v : JsVal) (key : String) : Option JsVal :=
  match v with
  | .obj fields => (fields.find? (fun p => p.1 == key)).map (fun p => p.2)
  | _ => none

/-- Whether a `JsVal` is a bare `{ Number: ... }` reference block. -/
def isNumberRef : JsVal → Bool
  | .obj [("Number", _)] => true
  | _ => false

/-- The hard-coded header exporter block emitted by `structureDataForXml`. -/
def novotransBlock : JsVal :=
  .obj [("Name", textS "Novotrans"), ("Address", textS "6371 NW 102nd Ave"),
    ("City", textS "Doral"), ("State", textS "FL"), ("PostalCode", textS "33178"),
    ("Country", textS "USA")]

/-! ## POST /generate-xml -/

/-- Error responses of the generate-xml route. -/
inductive GenError where
  | noMatch
  | emptyDb
  | internal
deriving Repr, DecidableEq

/-- `POST /generate-xml` (server.js lines 585-635), modelled from the point where
the route has resolved `masterBill := body.masterBill || body` and
`selectedIds := body.selectedIds / body.ids / []`.  The master-bill entry spread
`{id, createdAt, updatedAt, ...masterBill}` is modelled as the record
`MasterBillEntry` holding the bill.  The two 400 validation failures happen
before `db.data.masterBill` is assigned; if the assembler throws afterwards the
entry has already been written (500 with persistence). -/
def generateXml (fresh : ℕ → String) (now today : String) (db : DB)
    (masterBill : MasterBill) (selectedIds : List String) :
    DB × Except GenError JsVal :=
  let allDeclarations := db.declarations
  let declarationsToUse :=
    if selectedIds.length > 0 then
      allDeclarations.filter (fun d => selectedIds.contains d.id)
    else allDeclarations
  if selectedIds.length > 0 ∧ declarationsToUse.length = 0 then
    (db, .error .noMatch)
  else if declarationsToUse.length = 0 then
    (db, .error .emptyDb)
  else
    let entry : MasterBillEntry :=
      { id := fresh 0, createdAt := now, updatedAt := now, bill := masterBill }
    let db' := { db with masterBill := some entry }
    match structureDataForXml today db.tariffs declarationsToUse masterBill with
    | .ok x => (db', .ok x)
    | .error _ => (db', .error .internal)

/-- C10: if generation is requested with a non-empty selected-identifier set
matching no persisted declaration, or the store holds no declarations at all,
the route answers with a validation error and the store — in particular the
singleton master bill — is unchanged. -/
theorem c10_generate_xml_validation (fresh : ℕ → String) (now today : String)
    (db : DB) (mb : MasterBill) (sel : List String)
    (h : (sel ≠ [] ∧ db.declarations.filter (fun d => sel.contains d.id) = []) ∨
      db.declarations = []) :
    (generateXml fresh now today db mb sel).1 = db ∧
    ∃ e, (generateXml fresh now today db mb sel).2 = .error e ∧
      (e = GenError.noMatch ∨ e = GenError.emptyDb) := by
  rcases h with ⟨hsel, hfil⟩ | hempty
  · have hlen : 0 < sel.length := List.length_pos.mpr hsel
    have hcond : sel.length > 0 ∧
        (if sel.length > 0 then db.declarations.filter (fun d => sel.contains d.id)
         else db.declarations).length = 0 := by
      rw [if_pos hlen, hfil]
      exact ⟨hlen, rfl⟩
    simp only [generateXml]
    rw [if_pos hcond]
    exact ⟨rfl, ⟨GenError.noMatch, rfl, Or.inl rfl⟩⟩
  · simp only [generateXml, hempty, List.filter_nil, ite_self, List.length_nil]
    by_cases hs : 0 < sel.length
    · rw [if_pos ⟨hs, trivial⟩]
      exact ⟨rfl, ⟨GenError.noMatch, rfl, Or.inl rfl⟩⟩
    · rw [if_neg (fun hc => hs hc.1), if_pos trivial]
      exact ⟨rfl, ⟨GenError.emptyDb, rfl, Or.inr rfl⟩⟩

/-- Concrete assembler output for the C6 witness. -/
def c6wOut : JsVal :=
  (structureDataForXml "2026-01-01" [] []
    { packages := some {} }).toOption.getD .undefined

/-- Concrete master bill whose top-level exporter carries a tax number. -/
def c6cMB : MasterBill :=
  { packages := some {}
    exporter := some { number := some "123" } }

/-- C6: in the assembled document the HEADER exporter block is always the
hard-coded Novotrans descriptive address block (never a number reference,
whatever the top-level exporter carries), while each consolidated item's
exporter block is a bare number reference exactly when that declaration's
exporter has a truthy tax number, and a descriptive address block otherwise. -/
theorem c6_exporter_blocks (today : String) (tariffDefs : List TariffDef)
    (decls : List Declaration) (mb : MasterBill) (x : JsVal)
    (hok : structureDataForXml today tariffDefs decls mb = Except.ok x) :
    (∃ sad, getField x "SADEntry" = some sad ∧
      getField sad "Exporter" = some novotransBlock ∧
      isNumberRef novotransBlock = false) ∧
    (∀ (d : Declaration) (tds : List TariffDef) (ix : JsVal),
      consolidatedItemXml tds d = Except.ok ix →
      ∃ ex, getField ix "Exporter" = some ex ∧
        isNumberRef ex = jsTruthyO (d.exporter.bind (fun e => e.number))) := by
  refine ⟨?_, ?_⟩
  · cases hp : mb.packages with
    | none =>
      simp only [structureDataForXml, hp] at hok
      exact Except.noConfusion hok
    | some mbp =>
      cases hm : decls.mapM (consolidatedItemXml tariffDefs) with
      | error e =>
        simp only [structureDataForXml, hp, hm] at hok
        exact Except.noConfusion hok
      | ok items =>
        simp only [structureDataForXml, hp, hm, Except.ok.injEq] at hok
        subst hok
        exact ⟨_, rfl, rfl, rfl⟩
  · intro d tds ix hix
    cases himp : d.importer with
    | none =>
      simp only [consolidatedItemXml, himp] at hix
      exact Except.noConfusion hix
    | some imp =>
      cases hpk : d.packages with
      | none =>
        simp only [consolidatedItemXml, himp, hpk] at hix
        exact Except.noConfusion hix
      | some pk =>
        cases hv : d.valuation with
        | none =>
          simp only [consolidatedItemXml, himp, hpk, hv] at hix
          exact Except.noConfusion hix
        | some v =>
          simp only [consolidatedItemXml, himp, hpk, hv, Except.ok.injEq] at hix
          subst hix
          cases hct : jsTruthyO (d.exporter.bind (fun e => e.number)) with
          | false =>
            rw [if_neg Bool.false_ne_true]
            exact ⟨_, rfl, rfl⟩
          | true =>
            rw [if_pos rfl]
            exact ⟨_, rfl, rfl⟩

/-- C6 witness: the theorem applied to a concrete generation over an empty
declaration list and a packages-only master bill. -/
theorem c6_exporter_blocks_witness :
    (∃ sad, getField c6wOut "SADEntry" = some sad ∧
      getField sad "Exporter" = some novotransBlock ∧
      isNumberRef novotransBlock = false) ∧
    (∀ (d : Declaration) (tds : List TariffDef) (ix : JsVal),
      consolidatedItemXml tds d = Except.ok ix →
      ∃ ex, getField ix "Exporter" = some ex ∧
        isNumberRef ex = jsTruthyO (d.exporter.bind (fun e => e.number))) :=
  c6_exporter_blocks "2026-01-01" [] [] { packages := some {} } c6wOut rfl

/-- C6 counterexample: the top-level exporter DOES carry a tax number, yet the
header exporter block is the fixed descriptive Novotrans block, not a number
reference (the number-reference header variant is commented out in the source). -/
theorem c6_counterexample :
    jsTruthyO (c6cMB.exporter.bind (fun e => e.number)) = true ∧
    ∃ x sad, structureDataForXml "2026-01-01" [] [] c6cMB = Except.ok x ∧
      getField x "SADEntry" = some sad ∧
      getField sad "Exporter" = some novotransBlock ∧
      isNumberRef novotransBlock = false :=
  ⟨rfl, _, _, rfl, rfl, rfl, rfl⟩

/-- C10 witness: generation against an empty store with a selected id. -/
theorem c10_generate_xml_validation_witness :
    (generateXml (fun _ => "m") "now" "today" ({} : DB) {} ["x"]).1 = ({} : DB) ∧
    ∃ e, (generateXml (fun _ => "m") "now" "today" ({} : DB) {} ["x"]).2 =
        Except.error e ∧
      (e = GenError.noMatch ∨ e = GenError.emptyDb) :=
  c10_generate_xml_validation (fun _ => "m") "now" "today" {} {} ["x"] (Or.inr rfl)
